import Mathlib

/-!
Verification of the PG-Drift metadata diff engine.

This file gives a shallow embedding, in Lean 4, of the core of the
repository:

* `src/pg_metadata_diff_results.py` — the pairwise metadata diff engine
  (`_compare_tables`, `_compare_columns`, `generate_diff_report`) and the
  memoizing metadata loader (`_load_metadata`);
* `src/utils/mask_string.py` — the secret-masking helper.

Python `dict`s are modelled as association lists with Python's dict
semantics (insertion order preserved, assignment to an existing key
overwrites the value in place, lookup returns the value of the key's last
assignment).  Python's `sorted` over code-point strings is modelled by
insertion sort under the code-point lexicographic order `strLe`.
-/

/-! ### Code-point lexicographic order on strings (Python `sorted` order) -/

/-- Lexicographic comparison of char lists by Unicode code point, as Python
compares strings. -/
def lexLe : List Char → List Char → Bool
  | [], _ => true
  | _ :: _, [] => false
  | a :: as, b :: bs =>
    if a.val.toNat < b.val.toNat then true
    else if b.val.toNat < a.val.toNat then false
    else lexLe as bs

/-- Python's `<=` on strings: code-point lexicographic order. -/
def strLe (a b : String) : Bool := lexLe a.data b.data

/-- The order relation used for sorting, as a `Prop`. -/
def StrLeR (a b : String) : Prop := strLe a b = true

instance : DecidableRel StrLeR := fun a b => by
  unfold StrLeR
  infer_instance

theorem char_eq_of_toNat_eq {a b : Char} (h : a.val.toNat = b.val.toNat) : a = b :=
  Char.ext (UInt32.ext h)

theorem lexLe_total (l1 l2 : List Char) : lexLe l1 l2 = true ∨ lexLe l2 l1 = true := by
  induction l1 generalizing l2 with
  | nil => left; rfl
  | cons x xs ih =>
    cases l2 with
    | nil => right; rfl
    | cons y ys =>
      simp only [lexLe]
      rcases lt_trichotomy x.val.toNat y.val.toNat with h | h | h
      · left; simp [h]
      · rcases ih ys with h2 | h2 <;> simp [h, h2]
      · right; simp [h, Nat.not_lt_of_lt h]

theorem lexLe_antisymm {l1 l2 : List Char} (h1 : lexLe l1 l2 = true)
    (h2 : lexLe l2 l1 = true) : l1 = l2 := by
  induction l1 generalizing l2 with
  | nil =>
    cases l2 with
    | nil => rfl
    | cons y ys => simp [lexLe] at h2
  | cons x xs ih =>
    cases l2 with
    | nil => simp [lexLe] at h1
    | cons y ys =>
      simp only [lexLe] at h1 h2
      rcases lt_trichotomy x.val.toNat y.val.toNat with h | h | h
      · simp [h, Nat.not_lt_of_lt h] at h2
      · have hxy := char_eq_of_toNat_eq h
        subst hxy
        simp [Nat.lt_irrefl] at h1 h2
        rw [ih h1 h2]
      · simp [h, Nat.not_lt_of_lt h] at h1

theorem lexLe_trans {l1 l2 l3 : List Char} (h1 : lexLe l1 l2 = true)
    (h2 : lexLe l2 l3 = true) : lexLe l1 l3 = true := by
  induction l1 generalizing l2 l3 with
  | nil => rfl
  | cons x xs ih =>
    cases l2 with
    | nil => simp [lexLe] at h1
    | cons y ys =>
      cases l3 with
      | nil => simp [lexLe] at h2
      | cons z zs =>
        simp only [lexLe] at h1 h2 ⊢
        rcases lt_trichotomy x.val.toNat y.val.toNat with hxy | hxy | hxy
        · rcases lt_trichotomy y.val.toNat z.val.toNat with hyz | hyz | hyz
          · simp [Nat.lt_trans hxy hyz]
          · rw [← hyz]; simp [hxy]
          · simp [hyz, Nat.not_lt_of_lt hyz] at h2
        · have hc := char_eq_of_toNat_eq hxy
          subst hc
          simp [Nat.lt_irrefl] at h1
          rcases lt_trichotomy x.val.toNat z.val.toNat with hyz | hyz | hyz
          · simp [hyz]
          · have hc2 := char_eq_of_toNat_eq hyz
            subst hc2
            simp [Nat.lt_irrefl] at h2 ⊢
            exact ih h1 h2
          · simp [hyz, Nat.not_lt_of_lt hyz] at h2
        · simp [hxy, Nat.not_lt_of_lt hxy] at h1

instance : IsTotal String StrLeR := ⟨fun a b => lexLe_total a.data b.data⟩

instance : IsTrans String StrLeR := ⟨fun _ _ _ h1 h2 => lexLe_trans h1 h2⟩

instance : IsAntisymm String StrLeR :=
  ⟨fun a b h1 h2 => by
    cases a; cases b
    exact congrArg String.mk (lexLe_antisymm h1 h2)⟩

instance : IsRefl String StrLeR :=
  ⟨fun a => by
    rcases lexLe_total a.data a.data with h | h <;> exact h⟩

/-- Python's `sorted` on a collection of strings. -/
def sortStr (l : List String) : List String := List.insertionSort StrLeR l

theorem sortStr_perm (l : List String) : (sortStr l).Perm l :=
  List.perm_insertionSort StrLeR l

theorem sortStr_sorted (l : List String) : List.Sorted StrLeR (sortStr l) :=
  List.sorted_insertionSort StrLeR l

theorem sortStr_eq_of_perm {l1 l2 : List String} (h : l1.Perm l2) :
    sortStr l1 = sortStr l2 :=
  List.eq_of_perm_of_sorted (((sortStr_perm l1).trans h).trans (sortStr_perm l2).symm)
    (sortStr_sorted l1) (sortStr_sorted l2)

/-! ### Data model (spec §3, `pg_metadata_diff_results.py`) -/

/-- A column descriptor with all required fields present
(`column_name`, `data_type`, `is_nullable`).  `is_nullable` is kept in its
stored string representation; the engine compares representations exactly. -/
structure Column where
  column_name : String
  data_type : String
  is_nullable : String
deriving DecidableEq

/-- One detected discrepancy, as built by `_compare_tables` /
`_compare_columns`. -/
structure Difference where
  diff_type : String
  table_name : String
  column_name : String
  detail : String
  db1 : String
  db2 : String
deriving DecidableEq

/-- A metadata snapshot: a parsed JSON object mapping table name to its
column list, modelled as an insertion-ordered association list. -/
abbrev Snapshot := List (String × List Column)

/-! ### Python dict operations -/

/-- Python `sorted(set(l1) - set(l2))`: the distinct elements of `l1` not in
`l2`, in ascending code-point order. -/
def sortedSetDiff (l1 l2 : List String) : List String :=
  sortStr (l1.dedup.filter (fun x => !(l2.contains x)))

/-- Python `sorted(set(l1) & set(l2))`: the distinct elements of `l1` also in
`l2`, in ascending code-point order. -/
def sortedSetInter (l1 l2 : List String) : List String :=
  sortStr (l1.dedup.filter (fun x => l2.contains x))

/-- Python dict lookup on an association list: the value of the LAST binding
of the key (later assignments overwrite earlier ones), with a junk default
for absent keys (a dict lookup in the source is only ever performed on keys
known to be present). -/
def dictGet {α : Type} (m : List (String × α)) (k : String) (dflt : α) : α :=
  match (m.filter (fun p => p.1 == k)).getLast? with
  | some p => p.2
  | none => dflt

/-- Python dict assignment `m[k] = v`: overwrite in place if the key exists,
else append. -/
def dictInsert {α : Type} (m : List (String × α)) (k : String) (v : α) :
    List (String × α) :=
  if m.any (fun p => p.1 == k) then
    m.map (fun p => if p.1 == k then (k, v) else p)
  else m ++ [(k, v)]

/-- The dict `{col['column_name']: col for col in cols}` viewed through
lookup: the LAST descriptor with the given name. -/
def colOf (cols : List Column) (n : String) : Column :=
  match (cols.filter (fun c => c.column_name == n)).getLast? with
  | some c => c
  | none => ⟨n, "", ""⟩

/-- `metadata[table]` for a parsed snapshot. -/
def tableCols (m : Snapshot) (t : String) : List Column :=
  dictGet m t []

/-! ### The diff engine (`_compare_columns`, `_compare_tables`) -/

/-- The `MISSING_TABLE` difference record. -/
def missingTableDiff (l1 l2 t : String) : Difference :=
  { diff_type := "MISSING_TABLE", table_name := t, column_name := "",
    detail := s!"Table exists in {l1} but not in {l2}", db1 := l1, db2 := l2 }

/-- The `EXTRA_TABLE` difference record. -/
def extraTableDiff (l1 l2 t : String) : Difference :=
  { diff_type := "EXTRA_TABLE", table_name := t, column_name := "",
    detail := s!"Table exists in {l2} but not in {l1}", db1 := l1, db2 := l2 }

/-- The `MISSING_COLUMN` difference record (descriptor taken from db1). -/
def missingColDiff (l1 l2 t n : String) (c : Column) : Difference :=
  let dt := c.data_type
  let nu := c.is_nullable
  { diff_type := "MISSING_COLUMN", table_name := t, column_name := n,
    detail := s!"Column exists in {l1} but not in {l2} (type: {dt}, nullable: {nu})",
    db1 := l1, db2 := l2 }

/-- The `EXTRA_COLUMN` difference record (descriptor taken from db2). -/
def extraColDiff (l1 l2 t n : String) (c : Column) : Difference :=
  let dt := c.data_type
  let nu := c.is_nullable
  { diff_type := "EXTRA_COLUMN", table_name := t, column_name := n,
    detail := s!"Column exists in {l2} but not in {l1} (type: {dt}, nullable: {nu})",
    db1 := l1, db2 := l2 }

/-- The detail of a `COLUMN_MISMATCH`: one clause per differing field,
joined by `"; "`. -/
def mismatchDetail (l1 l2 : String) (c1 c2 : Column) : String :=
  let t1 := c1.data_type
  let t2 := c2.data_type
  let n1 := c1.is_nullable
  let n2 := c2.is_nullable
  String.intercalate "; "
    ((if c1.data_type ≠ c2.data_type then [s!"data_type: {l1}={t1} vs {l2}={t2}"] else []) ++
     (if c1.is_nullable ≠ c2.is_nullable then [s!"nullable: {l1}={n1} vs {l2}={n2}"] else []))

/-- The `COLUMN_MISMATCH` difference record. -/
def mismatchDiff (l1 l2 t n : String) (c1 c2 : Column) : Difference :=
  { diff_type := "COLUMN_MISMATCH", table_name := t, column_name := n,
    detail := mismatchDetail l1 l2 c1 c2, db1 := l1, db2 := l2 }

/-- `_compare_columns`: compare the column lists of one common table. -/
def compareColumns (t : String) (cols1 cols2 : List Column) (l1 l2 : String) :
    List Difference :=
  let names1 := cols1.map (fun c => c.column_name)
  let names2 := cols2.map (fun c => c.column_name)
  ((sortedSetDiff names1 names2).map (fun n => missingColDiff l1 l2 t n (colOf cols1 n))) ++
  ((sortedSetDiff names2 names1).map (fun n => extraColDiff l1 l2 t n (colOf cols2 n))) ++
  ((sortedSetInter names1 names2).flatMap (fun n =>
    let c1 := colOf cols1 n
    let c2 := colOf cols2 n
    if c1.data_type ≠ c2.data_type ∨ c1.is_nullable ≠ c2.is_nullable then
      [mismatchDiff l1 l2 t n c1 c2]
    else []))

/-- `_compare_tables`: compare two labelled snapshots. -/
def compareTables (l1 : String) (m1 : Snapshot) (l2 : String) (m2 : Snapshot) :
    List Difference :=
  let tables1 := m1.map (fun p => p.1)
  let tables2 := m2.map (fun p => p.1)
  ((sortedSetDiff tables1 tables2).map (fun t => missingTableDiff l1 l2 t)) ++
  ((sortedSetDiff tables2 tables1).map (fun t => extraTableDiff l1 l2 t)) ++
  ((sortedSetInter tables1 tables2).flatMap (fun t =>
    compareColumns t (tableCols m1 t) (tableCols m2 t) l1 l2))

/-! ### `generate_diff_report`: the comparison phase -/

/-- Building `metadata_map` by successive dict assignment
`metadata_map[label] = snapshot`. -/
def buildMap {α : Type} (entries : List (String × α)) : List (String × α) :=
  entries.foldl (fun acc e => dictInsert acc e.1 e.2) []

/-- The nested loop `for i in range(n): for j in range(i+1, n)` over labels. -/
def allPairs : List String → List (String × String)
  | [] => []
  | x :: xs => (xs.map (fun y => (x, y))) ++ allPairs xs

/-- The comparison phase of `generate_diff_report`: build the label map,
enumerate label pairs in input order, concatenate the per-pair results. -/
def compareAll (entries : List (String × Snapshot)) : List Difference :=
  let mmap := buildMap entries
  let labels := mmap.map (fun p => p.1)
  (allPairs labels).flatMap
    (fun q => compareTables q.1 (dictGet mmap q.1 []) q.2 (dictGet mmap q.2 []))

/-! ### The memoizing metadata loader (`_load_metadata`) -/

/-- One call to `_load_metadata`, parametrised by the file system `fs`
(mapping a filepath to the snapshot its JSON parses to).  Returns the
snapshot, the updated cache, and the list of filepaths actually read
(empty on a cache hit, the one filepath on a miss). -/
def loadStep (fs : String → Snapshot) (cache : List (String × Snapshot))
    (fp : String) : Snapshot × List (String × Snapshot) × List String :=
  if cache.any (fun p => p.1 == fp) then (dictGet cache fp [], cache, [])
  else (fs fp, cache ++ [(fp, fs fp)], [fp])

/-- The load loop of `generate_diff_report`: load each filepath in turn
through the shared cache, collecting results and the read log. -/
def loadSeq (fs : String → Snapshot) (cache : List (String × Snapshot)) :
    List String → List Snapshot × List (String × Snapshot) × List String
  | [] => ([], cache, [])
  | fp :: rest =>
    let r1 := loadStep fs cache fp
    let r2 := loadSeq fs r1.2.1 rest
    (r1.1 :: r2.1, r2.2.1, r1.2.2 ++ r2.2.2)

/-! ### `mask_string` (`src/utils/mask_string.py`) -/

/-- `mask_string(value, visible_chars=3)`.  Python slices strings by
character, so `value[:n]` is `List.take n` on the char data. -/
def mask_string (value : String) (visible_chars : Nat := 3) : String :=
  if value = "" ∨ value.length ≤ visible_chars then "***"
  else String.mk (value.data.take visible_chars) ++ "***"

/-! ### Raw embedding: column descriptors with possibly missing fields

`_compare_columns` subscripts each descriptor dict (`col['column_name']`,
`col['data_type']`, `col['is_nullable']`); a missing key raises `KeyError`,
which propagates out of `generate_diff_report` uncaught, before any report
file is written.  This raw embedding makes those accesses explicit in the
`Except` monad, following the source's access order. -/

/-- A column descriptor as parsed from JSON: any required key may be
absent. -/
structure RawColumn where
  column_name : Option String
  data_type : Option String
  is_nullable : Option String
deriving DecidableEq

/-- A snapshot whose descriptors may lack required fields. -/
abbrev RawSnapshot := List (String × List RawColumn)

/-- `col[field]`: a dict subscript that raises `KeyError` when absent. -/
def getF (v : Option String) (field : String) : Except String String :=
  match v with
  | some s => Except.ok s
  | none => Except.error s!"KeyError: {field}"

/-- The junk descriptor used as `dictGet` default (never looked at on keys
known to be present). -/
def noCol : RawColumn := ⟨none, none, none⟩

/-- `{col['column_name']: col for col in cols}` with the `KeyError` of the
name subscript made explicit. -/
def rawColsDict (cols : List RawColumn) :
    Except String (List (String × RawColumn)) :=
  cols.foldlM (fun acc c => do
    let n ← getF c.column_name "column_name"
    pure (dictInsert acc n c)) []

/-- `_compare_columns` over raw descriptors, with every dict subscript
explicit. -/
def rawCompareColumns (t : String) (cols1 cols2 : List RawColumn)
    (l1 l2 : String) : Except String (List Difference) := do
  let d1 ← rawColsDict cols1
  let d2 ← rawColsDict cols2
  let names1 := d1.map (fun p => p.1)
  let names2 := d2.map (fun p => p.1)
  let missing ← (sortedSetDiff names1 names2).mapM (fun n => do
    let c := dictGet d1 n noCol
    let dt ← getF c.data_type "data_type"
    let nu ← getF c.is_nullable "is_nullable"
    pure (missingColDiff l1 l2 t n ⟨n, dt, nu⟩))
  let extra ← (sortedSetDiff names2 names1).mapM (fun n => do
    let c := dictGet d2 n noCol
    let dt ← getF c.data_type "data_type"
    let nu ← getF c.is_nullable "is_nullable"
    pure (extraColDiff l1 l2 t n ⟨n, dt, nu⟩))
  let mism ← (sortedSetInter names1 names2).mapM (fun n => do
    let c1 := dictGet d1 n noCol
    let c2 := dictGet d2 n noCol
    let t1 ← getF c1.data_type "data_type"
    let t2 ← getF c2.data_type "data_type"
    let n1 ← getF c1.is_nullable "is_nullable"
    let n2 ← getF c2.is_nullable "is_nullable"
    pure (if t1 ≠ t2 ∨ n1 ≠ n2 then [mismatchDiff l1 l2 t n ⟨n, t1, n1⟩ ⟨n, t2, n2⟩]
          else []))
  pure (missing ++ extra ++ mism.flatten)

/-- `_compare_tables` over raw snapshots. -/
def rawCompareTables (l1 : String) (m1 : RawSnapshot) (l2 : String)
    (m2 : RawSnapshot) : Except String (List Difference) := do
  let tables1 := m1.map (fun p => p.1)
  let tables2 := m2.map (fun p => p.1)
  let mt := (sortedSetDiff tables1 tables2).map (fun t => missingTableDiff l1 l2 t)
  let et := (sortedSetDiff tables2 tables1).map (fun t => extraTableDiff l1 l2 t)
  let parts ← (sortedSetInter tables1 tables2).mapM (fun t =>
    rawCompareColumns t (dictGet m1 t []) (dictGet m2 t []) l1 l2)
  pure (mt ++ et ++ parts.flatten)

/-- The comparison phase of `generate_diff_report` over raw snapshots. -/
def rawCompareAll (entries : List (String × RawSnapshot)) :
    Except String (List Difference) := do
  let mmap := buildMap entries
  let labels := mmap.map (fun p => p.1)
  let parts ← (allPairs labels).mapM (fun q =>
    rawCompareTables q.1 (dictGet mmap q.1 []) q.2 (dictGet mmap q.2 []))
  pure parts.flatten

/-- One CSV data row per Difference, fields in source order. -/
def csvRow (d : Difference) : List String :=
  [d.diff_type, d.table_name, d.column_name, d.db1, d.db2, d.detail]

/-- `generate_diff_report` over raw snapshots: compare, then either return
early with no file (`none`) when there are no differences, or produce the
CSV rows (header first).  An uncaught `KeyError` aborts the run before any
file is written. -/
def rawGenerateDiffReport (entries : List (String × RawSnapshot)) :
    Except String (Option (List (List String))) := do
  let diffs ← rawCompareAll entries
  if diffs = [] then pure none
  else pure (some
    (["Diff Type", "Table Name", "Column Name", "Database 1", "Database 2", "Detail"] ::
      diffs.map csvRow))

/-! ### Spec-side definitions (for refinement claims) -/

/-- Modelled from the spec: `compareAll`'s pair enumeration as the spec
states it — pairs `(i, j)` of entries with `i` appearing before `j` in input
order, `i` enumerated first to last. -/
def entryPairs {α : Type} : List α → List (α × α)
  | [] => []
  | x :: xs => (xs.map (fun y => (x, y))) ++ entryPairs xs

/-- Modelled from the spec: the comparison phase as the spec states it —
run `comparePair` on each enumerated pair of labelled entries, `i` as db1,
and concatenate the results in enumeration order with no re-sort. -/
def specCompareAll (entries : List (String × Snapshot)) : List Difference :=
  (entryPairs entries).flatMap (fun q => compareTables q.1.1 q.1.2 q.2.1 q.2.2)

/-- Replace the `data_type` of the column named `c` in a column list
(statement device for the symmetry claim). -/
def updateCols (cols : List Column) (c y : String) : List Column :=
  cols.map (fun col => if col.column_name = c then
    { col with data_type := y } else col)

/-- Replace the `data_type` of column `c` of table `t` in a snapshot. -/
def updateSnap (m : Snapshot) (t c y : String) : Snapshot :=
  m.map (fun p => if p.1 = t then (p.1, updateCols p.2 c y) else p)

/-! ### Properties of the sorted set operations -/

theorem mem_sortStr {x : String} {l : List String} : x ∈ sortStr l ↔ x ∈ l :=
  (sortStr_perm l).mem_iff

theorem sortStr_nodup {l : List String} (h : l.Nodup) : (sortStr l).Nodup :=
  (sortStr_perm l).symm.nodup h

theorem sortedSetDiff_nodup (l1 l2 : List String) : (sortedSetDiff l1 l2).Nodup :=
  sortStr_nodup ((List.nodup_dedup l1).filter _)

theorem sortedSetInter_nodup (l1 l2 : List String) : (sortedSetInter l1 l2).Nodup :=
  sortStr_nodup ((List.nodup_dedup l1).filter _)

theorem mem_sortedSetDiff {x : String} {l1 l2 : List String} :
    x ∈ sortedSetDiff l1 l2 ↔ x ∈ l1 ∧ x ∉ l2 := by
  unfold sortedSetDiff
  rw [mem_sortStr, List.mem_filter, List.mem_dedup]
  simp [List.elem_iff]

theorem mem_sortedSetInter {x : String} {l1 l2 : List String} :
    x ∈ sortedSetInter l1 l2 ↔ x ∈ l1 ∧ x ∈ l2 := by
  unfold sortedSetInter
  rw [mem_sortStr, List.mem_filter, List.mem_dedup]
  simp [List.elem_iff]

theorem count_sortedSetDiff {x : String} {l1 l2 : List String} (h1 : x ∈ l1)
    (h2 : x ∉ l2) : (sortedSetDiff l1 l2).count x = 1 :=
  List.count_eq_one_of_mem (sortedSetDiff_nodup l1 l2) (mem_sortedSetDiff.mpr ⟨h1, h2⟩)

theorem count_sortedSetInter {x : String} {l1 l2 : List String} (h1 : x ∈ l1)
    (h2 : x ∈ l2) : (sortedSetInter l1 l2).count x = 1 :=
  List.count_eq_one_of_mem (sortedSetInter_nodup l1 l2) (mem_sortedSetInter.mpr ⟨h1, h2⟩)

theorem sortedSetDiff_eq_nil {l1 l2 : List String} (h : ∀ x ∈ l1, x ∈ l2) :
    sortedSetDiff l1 l2 = [] := by
  unfold sortedSetDiff
  have hf : l1.dedup.filter (fun x => !(l2.contains x)) = [] := by
    rw [List.filter_eq_nil_iff]
    intro a ha
    simp only [Bool.not_eq_true', Bool.not_eq_false, List.elem_iff]
    exact h a (List.mem_dedup.mp ha)
  rw [hf]
  rfl

/-! ### Properties of the dict operations -/

theorem keyFilter_len_le_one {α : Type} {m : List (String × α)} {k : String}
    (h : (m.map Prod.fst).Nodup) : (m.filter (fun p => p.1 == k)).length ≤ 1 := by
  induction m with
  | nil => simp
  | cons p ps ih =>
    simp only [List.map_cons, List.nodup_cons] at h
    by_cases hp : p.1 = k
    · have hrest : ps.filter (fun q => q.1 == k) = [] := by
        rw [List.filter_eq_nil_iff]
        intro q hq hqk
        exact h.1 (hp ▸ (beq_iff_eq.mp hqk ▸ List.mem_map_of_mem Prod.fst hq))
      simp [List.filter_cons, hp, hrest]
    · simpa [List.filter_cons, hp] using ih h.2

theorem dictGet_cons_ne {α : Type} {p : String × α} {ps : List (String × α)}
    {k : String} {d : α} (h : (p.1 == k) = false) :
    dictGet (p :: ps) k d = dictGet ps k d := by
  unfold dictGet
  rw [List.filter_cons, h]
  simp

theorem dictGet_of_mem {α : Type} {m : List (String × α)} {k : String} {v : α}
    {d : α} (h : (m.map Prod.fst).Nodup) (hm : (k, v) ∈ m) : dictGet m k d = v := by
  induction m with
  | nil => cases hm
  | cons p ps ih =>
    simp only [List.map_cons, List.nodup_cons] at h
    rcases List.mem_cons.mp hm with hp | hp
    · subst hp
      have hrest : ps.filter (fun q => q.1 == k) = [] := by
        rw [List.filter_eq_nil_iff]
        intro q hq hqk
        have hqm : q.1 ∈ ps.map Prod.fst := List.mem_map_of_mem Prod.fst hq
        rw [beq_iff_eq.mp hqk] at hqm
        exact h.1 hqm
      unfold dictGet
      rw [List.filter_cons]
      simp [hrest]
    · have hkps : k ∈ ps.map Prod.fst := List.mem_map_of_mem Prod.fst hp
      have hne : (p.1 == k) = false := by
        rw [beq_eq_false_iff_ne]
        intro hk
        exact h.1 (hk ▸ hkps)
      rw [dictGet_cons_ne hne]
      exact ih h.2 hp

theorem dictGet_values {α : Type} {m : List (String × α)} {g : String → α}
    (h : ∀ p ∈ m, p.2 = g p.1) {k : String} {d : α} (hk : k ∈ m.map Prod.fst) :
    dictGet m k d = g k := by
  have hne : m.filter (fun p => p.1 == k) ≠ [] := by
    rcases List.mem_map.mp hk with ⟨p, hp, hpk⟩
    exact List.ne_nil_of_mem (List.mem_filter.mpr ⟨hp, beq_iff_eq.mpr hpk⟩)
  rcases hq : (m.filter (fun p => p.1 == k)).getLast? with _ | q
  · exact absurd (List.getLast?_eq_none_iff.mp hq) hne
  · have hqf := List.mem_of_mem_getLast? hq
    rcases List.mem_filter.mp hqf with ⟨hqm, hqk⟩
    have : q.2 = g q.1 := h q hqm
    simp only [dictGet, hq]
    rw [this, beq_iff_eq.mp hqk]

theorem dictGet_perm {α : Type} {m m' : List (String × α)} {k : String} {d : α}
    (hp : m.Perm m') (h : (m.map Prod.fst).Nodup) : dictGet m k d = dictGet m' k d := by
  have hpf := hp.filter (fun p => p.1 == k)
  have hlen := keyFilter_len_le_one (m := m) (k := k) h
  rcases hf : m.filter (fun p => p.1 == k) with _ | ⟨a, tail⟩
  · rw [hf] at hpf
    have : m'.filter (fun p => p.1 == k) = [] := (List.perm_nil.mp hpf.symm)
    simp [dictGet, hf, this]
  · rw [hf] at hpf hlen
    have htail : tail = [] := by
      cases tail with
      | nil => rfl
      | cons b bs => simp at hlen
    subst htail
    have : m'.filter (fun p => p.1 == k) = [a] := List.perm_singleton.mp hpf.symm
    simp [dictGet, hf, this]

/-! ### Properties of map building -/

theorem foldl_dictInsert_fresh {α : Type} (es : List (String × α)) :
    ∀ acc : List (String × α), (acc.map Prod.fst ++ es.map Prod.fst).Nodup →
    es.foldl (fun a e => dictInsert a e.1 e.2) acc = acc ++ es := by
  induction es with
  | nil => intro acc _; simp
  | cons e es ih =>
    intro acc h
    have hfresh : e.1 ∉ acc.map Prod.fst := by
      rcases List.nodup_append.mp h with ⟨_, _, hdisj⟩
      intro hmem
      exact hdisj hmem (by simp)
    have hins : dictInsert acc e.1 e.2 = acc ++ [e] := by
      unfold dictInsert
      have : acc.any (fun p => p.1 == e.1) = false := by
        rw [List.any_eq_false]
        intro p hp hk
        exact hfresh (beq_iff_eq.mp hk ▸ List.mem_map_of_mem Prod.fst hp)
      simp [this]
    rw [List.foldl_cons, hins, ih (acc ++ [e]) (by
      simp only [List.map_append, List.map_cons] at h ⊢
      simpa [List.append_assoc] using h)]
    simp

theorem buildMap_of_nodup {α : Type} {es : List (String × α)}
    (h : (es.map Prod.fst).Nodup) : buildMap es = es := by
  unfold buildMap
  rw [foldl_dictInsert_fresh es [] (by simpa using h)]
  simp

/-! ### Counting helpers -/

theorem countP_flatMap_zero {α β : Type} (p : β → Bool) (l : List α)
    (f : α → List β) (h : ∀ x ∈ l, (f x).countP p = 0) :
    (l.flatMap f).countP p = 0 := by
  induction l with
  | nil => rfl
  | cons x xs ih =>
    rw [List.flatMap_cons, List.countP_append, h x (by simp),
      ih (fun y hy => h y (List.mem_cons_of_mem x hy))]

theorem countP_flatMap_single {α β : Type} (p : β → Bool) {l : List α} {t : α}
    (f : α → List β) (hn : l.Nodup) (ht : t ∈ l)
    (h0 : ∀ x ∈ l, x ≠ t → (f x).countP p = 0) :
    (l.flatMap f).countP p = (f t).countP p := by
  induction l with
  | nil => cases ht
  | cons x xs ih =>
    rw [List.flatMap_cons, List.countP_append]
    rcases List.mem_cons.mp ht with hx | hx
    · subst hx
      have : (xs.flatMap f).countP p = 0 := by
        apply countP_flatMap_zero
        intro y hy
        exact h0 y (List.mem_cons_of_mem _ hy)
          (fun hyx => (List.nodup_cons.mp hn).1 (hyx ▸ hy))
      rw [this]
      simp
    · have hxt : x ≠ t := by
        intro hx2
        exact (List.nodup_cons.mp hn).1 (hx2 ▸ hx)
      rw [h0 x (by simp) hxt, ih (List.nodup_cons.mp hn).2 hx
        (fun y hy hyt => h0 y (List.mem_cons_of_mem x hy) hyt)]
      simp

/-! ### Properties of column lookup -/

theorem colOf_of_mem {cols : List Column} {c : Column}
    (h : (cols.map Column.column_name).Nodup) (hc : c ∈ cols) :
    colOf cols c.column_name = c := by
  induction cols with
  | nil => cases hc
  | cons p ps ih =>
    simp only [List.map_cons, List.nodup_cons] at h
    rcases List.mem_cons.mp hc with hp | hp
    · subst hp
      have hrest : ps.filter (fun q => q.column_name == c.column_name) = [] := by
        rw [List.filter_eq_nil_iff]
        intro q hq hqk
        have hqm : q.column_name ∈ ps.map Column.column_name :=
          List.mem_map_of_mem Column.column_name hq
        rw [beq_iff_eq.mp hqk] at hqm
        exact h.1 hqm
      unfold colOf
      rw [List.filter_cons]
      simp [hrest]
    · have hkps : c.column_name ∈ ps.map Column.column_name :=
        List.mem_map_of_mem Column.column_name hp
      have hne : (p.column_name == c.column_name) = false := by
        rw [beq_eq_false_iff_ne]
        intro hk
        exact h.1 (hk ▸ hkps)
      unfold colOf
      rw [List.filter_cons, hne]
      have := ih h.2 hp
      unfold colOf at this
      simpa using this

/-! ### Projections of the difference constructors -/

@[simp] theorem mtd_fields (l1 l2 t : String) :
    (missingTableDiff l1 l2 t).diff_type = "MISSING_TABLE" ∧
    (missingTableDiff l1 l2 t).table_name = t ∧
    (missingTableDiff l1 l2 t).column_name = "" := ⟨rfl, rfl, rfl⟩

@[simp] theorem etd_fields (l1 l2 t : String) :
    (extraTableDiff l1 l2 t).diff_type = "EXTRA_TABLE" ∧
    (extraTableDiff l1 l2 t).table_name = t ∧
    (extraTableDiff l1 l2 t).column_name = "" := ⟨rfl, rfl, rfl⟩

@[simp] theorem mcd_fields (l1 l2 t n : String) (c : Column) :
    (missingColDiff l1 l2 t n c).diff_type = "MISSING_COLUMN" ∧
    (missingColDiff l1 l2 t n c).table_name = t ∧
    (missingColDiff l1 l2 t n c).column_name = n := ⟨rfl, rfl, rfl⟩

@[simp] theorem ecd_fields (l1 l2 t n : String) (c : Column) :
    (extraColDiff l1 l2 t n c).diff_type = "EXTRA_COLUMN" ∧
    (extraColDiff l1 l2 t n c).table_name = t ∧
    (extraColDiff l1 l2 t n c).column_name = n := ⟨rfl, rfl, rfl⟩

@[simp] theorem mmd_fields (l1 l2 t n : String) (c1 c2 : Column) :
    (mismatchDiff l1 l2 t n c1 c2).diff_type = "COLUMN_MISMATCH" ∧
    (mismatchDiff l1 l2 t n c1 c2).table_name = t ∧
    (mismatchDiff l1 l2 t n c1 c2).column_name = n := ⟨rfl, rfl, rfl⟩

/-! ### Unfolding equations for the comparison functions -/

theorem compareColumns_eq (t : String) (cols1 cols2 : List Column) (l1 l2 : String) :
    compareColumns t cols1 cols2 l1 l2 =
      ((sortedSetDiff (cols1.map Column.column_name) (cols2.map Column.column_name)).map
        (fun n => missingColDiff l1 l2 t n (colOf cols1 n))) ++
      ((sortedSetDiff (cols2.map Column.column_name) (cols1.map Column.column_name)).map
        (fun n => extraColDiff l1 l2 t n (colOf cols2 n))) ++
      ((sortedSetInter (cols1.map Column.column_name) (cols2.map Column.column_name)).flatMap
        (fun n =>
          if (colOf cols1 n).data_type ≠ (colOf cols2 n).data_type ∨
             (colOf cols1 n).is_nullable ≠ (colOf cols2 n).is_nullable then
            [mismatchDiff l1 l2 t n (colOf cols1 n) (colOf cols2 n)]
          else [])) := rfl

theorem compareTables_eq (l1 : String) (m1 : Snapshot) (l2 : String) (m2 : Snapshot) :
    compareTables l1 m1 l2 m2 =
      ((sortedSetDiff (m1.map Prod.fst) (m2.map Prod.fst)).map
        (fun t => missingTableDiff l1 l2 t)) ++
      ((sortedSetDiff (m2.map Prod.fst) (m1.map Prod.fst)).map
        (fun t => extraTableDiff l1 l2 t)) ++
      ((sortedSetInter (m1.map Prod.fst) (m2.map Prod.fst)).flatMap (fun t =>
        compareColumns t (tableCols m1 t) (tableCols m2 t) l1 l2)) := rfl

/-! ### Comparing identical data yields nothing -/

theorem compareColumns_self (t : String) (cols : List Column) (l1 l2 : String) :
    compareColumns t cols cols l1 l2 = [] := by
  rw [compareColumns_eq, sortedSetDiff_eq_nil (fun x hx => hx)]
  simp only [List.map_nil, List.nil_append, List.append_nil]
  rw [List.flatMap_eq_nil_iff]
  intro n _
  simp

theorem compareTables_self (l1 l2 : String) (m : Snapshot) :
    compareTables l1 m l2 m = [] := by
  rw [compareTables_eq, sortedSetDiff_eq_nil (fun x hx => hx)]
  simp only [List.map_nil, List.nil_append, List.append_nil]
  rw [List.flatMap_eq_nil_iff]
  intro t _
  exact compareColumns_self t (tableCols m t) l1 l2

/-! ### Membership facts about pair enumeration and map building -/

theorem allPairs_mem {a b : String} {l : List String} (h : (a, b) ∈ allPairs l) :
    a ∈ l ∧ b ∈ l := by
  induction l with
  | nil => cases h
  | cons x xs ih =>
    rcases List.mem_append.mp h with hm | hm
    · rcases List.mem_map.mp hm with ⟨y, hy, hye⟩
      injection hye with hx1 hy1
      subst hx1
      subst hy1
      exact ⟨List.mem_cons_self _ _, List.mem_cons_of_mem _ hy⟩
    · rcases ih hm with ⟨ha, hb⟩
      exact ⟨List.mem_cons_of_mem x ha, List.mem_cons_of_mem x hb⟩

theorem mem_dictInsert {α : Type} {q : String × α} {m : List (String × α)}
    {k : String} {v : α} (h : q ∈ dictInsert m k v) : q ∈ m ∨ q = (k, v) := by
  unfold dictInsert at h
  split at h
  · rcases List.mem_map.mp h with ⟨p, hp, hpe⟩
    by_cases hk : (p.1 == k) = true
    · right; rw [← hpe]; simp [hk]
    · left
      rw [← hpe]
      simp only [Bool.not_eq_true] at hk
      simp [hk]
      exact hp
  · rcases List.mem_append.mp h with hm | hm
    · exact Or.inl hm
    · right; simpa using hm

theorem buildMap_values {α : Type} {es : List (String × α)} {g : String → α}
    (h : ∀ p ∈ es, p.2 = g p.1) : ∀ p ∈ buildMap es, p.2 = g p.1 := by
  unfold buildMap
  suffices hgen : ∀ acc : List (String × α), (∀ p ∈ acc, p.2 = g p.1) →
      ∀ p ∈ es.foldl (fun a e => dictInsert a e.1 e.2) acc, p.2 = g p.1 by
    exact hgen [] (by simp)
  induction es with
  | nil =>
    intro acc hacc
    simpa using hacc
  | cons e es ih =>
    intro acc hacc
    rw [List.foldl_cons]
    apply ih (fun p hp => h p (List.mem_cons_of_mem e hp))
    intro p hp
    rcases mem_dictInsert hp with hm | hm
    · exact hacc p hm
    · rw [hm]
      exact h e (by simp)

/-- All pair comparisons of snapshots with identical content are empty:
the comparison phase over any entry list whose snapshots are all equal
produces no differences. -/
theorem compareAll_const {entries : List (String × Snapshot)} {m : Snapshot}
    (h : ∀ p ∈ entries, p.2 = m) : compareAll entries = [] := by
  unfold compareAll
  rw [List.flatMap_eq_nil_iff]
  intro q hq
  rcases allPairs_mem hq with ⟨h1, h2⟩
  have hvals : ∀ p ∈ buildMap entries, p.2 = (fun _ => m) p.1 :=
    buildMap_values (g := fun _ => m) (fun p hp => h p hp)
  rw [dictGet_values (g := fun _ => m) hvals h1,
    dictGet_values (g := fun _ => m) hvals h2]
  exact compareTables_self q.1 q.2 m

/-! ### Claim C2: identical snapshots produce no differences -/

/-- C2: for every input whose labelled snapshots are all identical (in
particular any pair, and three identical labelled snapshots), the
comparison phase of `generate_diff_report` produces an empty Difference
sequence. -/
theorem claim_c2 (entries : List (String × Snapshot)) (m : Snapshot)
    (h : ∀ p ∈ entries, p.2 = m) : compareAll entries = [] :=
  compareAll_const h

/-- A small concrete snapshot used by witnesses. -/
def demoSnap : Snapshot := [("users", [⟨"id", "integer", "NO"⟩])]

theorem claim_c2_witness :
    (∀ p ∈ [("db1", demoSnap), ("db2", demoSnap), ("db3", demoSnap)], p.2 = demoSnap) ∧
    compareAll [("db1", demoSnap), ("db2", demoSnap), ("db3", demoSnap)] = [] :=
  ⟨by decide, claim_c2 _ demoSnap (by decide)⟩

/-! ### Claim C9: mask_string -/

/-- C9: `mask_string(s, n)` returns `"***"` when `len(s) <= n`, and the
first `n` characters of `s` followed by `"***"` otherwise; in particular
`mask("", 3) = "***"`, `mask("ab", 3) = "***"`,
`mask("secretvalue", 3) = "sec***"`. -/
theorem claim_c9 (s : String) (n : Nat) :
    (s.length ≤ n → mask_string s n = "***") ∧
    (n < s.length → mask_string s n = String.mk (s.data.take n) ++ "***") ∧
    mask_string "" 3 = "***" ∧ mask_string "ab" 3 = "***" ∧
    mask_string "secretvalue" 3 = "sec***" := by
  refine ⟨fun h => ?_, fun h => ?_, by decide, by decide, by decide⟩
  · unfold mask_string
    rw [if_pos (Or.inr h)]
  · unfold mask_string
    rw [if_neg]
    intro hc
    rcases hc with hc | hc
    · rw [hc] at h
      exact Nat.not_lt_zero n h
    · exact absurd h (Nat.not_lt_of_le hc)

theorem claim_c9_witness :
    3 < String.length "secretvalue" ∧
    mask_string "secretvalue" 3 = String.mk ("secretvalue".data.take 3) ++ "***" :=
  ⟨by decide, (claim_c9 "secretvalue" 3).2.1 (by decide)⟩

/-! ### Claim C7: the loader parses each source at most once -/

theorem loadSeq_cons (fs : String → Snapshot) (cache : List (String × Snapshot))
    (fp : String) (rest : List String) :
    loadSeq fs cache (fp :: rest) =
      ((loadStep fs cache fp).1 :: (loadSeq fs (loadStep fs cache fp).2.1 rest).1,
       (loadSeq fs (loadStep fs cache fp).2.1 rest).2.1,
       (loadStep fs cache fp).2.2 ++ (loadSeq fs (loadStep fs cache fp).2.1 rest).2.2) := rfl

theorem loadSeq_ok (fs : String → Snapshot) (fps : List String) :
    ∀ cache : List (String × Snapshot),
    (∀ p ∈ cache, p.2 = fs p.1) → (cache.map Prod.fst).Nodup →
    (loadSeq fs cache fps).1 = fps.map fs ∧
    (loadSeq fs cache fps).2.2.Nodup ∧
    (∀ x, x ∈ (loadSeq fs cache fps).2.2 ↔ x ∈ fps ∧ x ∉ cache.map Prod.fst) ∧
    (∀ p ∈ (loadSeq fs cache fps).2.1, p.2 = fs p.1) ∧
    ((loadSeq fs cache fps).2.1.map Prod.fst).Nodup ∧
    (∀ x, x ∈ (loadSeq fs cache fps).2.1.map Prod.fst ↔
      x ∈ cache.map Prod.fst ∨ x ∈ fps) := by
  induction fps with
  | nil =>
    intro cache hvals hnod
    refine ⟨rfl, List.nodup_nil, by simp [loadSeq], hvals, hnod, by simp [loadSeq]⟩
  | cons fp rest ih =>
    intro cache hvals hnod
    by_cases hhit : cache.any (fun p => p.1 == fp) = true
    · have hkey : fp ∈ cache.map Prod.fst := by
        rcases List.any_eq_true.mp hhit with ⟨p, hp, hpk⟩
        exact beq_iff_eq.mp hpk ▸ List.mem_map_of_mem Prod.fst hp
      have hstep : loadStep fs cache fp = (dictGet cache fp [], cache, []) := by
        unfold loadStep
        rw [if_pos hhit]
      have hval : dictGet cache fp [] = fs fp := dictGet_values (g := fs) hvals hkey
      have hrec := ih cache hvals hnod
      rw [loadSeq_cons, hstep]
      simp only [List.nil_append]
      refine ⟨?_, hrec.2.1, ?_, hrec.2.2.2.1, hrec.2.2.2.2.1, ?_⟩
    -- results
      · rw [List.map_cons, hval, hrec.1]
    -- read log membership
      · intro x
        rw [hrec.2.2.1 x]
        constructor
        · rintro ⟨hx, hnx⟩
          exact ⟨List.mem_cons_of_mem fp hx, hnx⟩
        · rintro ⟨hx, hnx⟩
          rcases List.mem_cons.mp hx with hx | hx
          · exact absurd (hx ▸ hkey) hnx
          · exact ⟨hx, hnx⟩
    -- final cache keys
      · intro x
        rw [hrec.2.2.2.2.2 x]
        constructor
        · rintro (hx | hx)
          · exact Or.inl hx
          · exact Or.inr (List.mem_cons_of_mem fp hx)
        · rintro (hx | hx)
          · exact Or.inl hx
          · rcases List.mem_cons.mp hx with hx | hx
            · exact Or.inl (hx ▸ hkey)
            · exact Or.inr hx
    · have hkey : fp ∉ cache.map Prod.fst := by
        intro hmem
        rcases List.mem_map.mp hmem with ⟨p, hp, hpk⟩
        exact hhit (List.any_eq_true.mpr ⟨p, hp, beq_iff_eq.mpr hpk⟩)
      have hstep : loadStep fs cache fp = (fs fp, cache ++ [(fp, fs fp)], [fp]) := by
        unfold loadStep
        rw [if_neg (by simpa using hhit)]
      have hvals2 : ∀ p ∈ cache ++ [(fp, fs fp)], p.2 = fs p.1 := by
        intro p hp
        rcases List.mem_append.mp hp with hp | hp
        · exact hvals p hp
        · rw [List.mem_singleton.mp hp]
      have hnod2 : ((cache ++ [(fp, fs fp)]).map Prod.fst).Nodup := by
        rw [List.map_append, List.nodup_append]
        refine ⟨hnod, by simp, ?_⟩
        intro x hx hx2
        rw [List.map_cons, List.map_nil, List.mem_singleton] at hx2
        subst hx2
        exact hkey hx
      have hrec := ih (cache ++ [(fp, fs fp)]) hvals2 hnod2
      rw [loadSeq_cons, hstep]
      simp only [List.singleton_append]
      have hkeys2 : ∀ x, x ∈ (cache ++ [(fp, fs fp)]).map Prod.fst ↔
          x ∈ cache.map Prod.fst ∨ x = fp := by
        intro x
        rw [List.map_append]
        simp [List.mem_append]
      refine ⟨?_, ?_, ?_, hrec.2.2.2.1, hrec.2.2.2.2.1, ?_⟩
    -- results
      · rw [List.map_cons, hrec.1]
    -- read log nodup
      · rw [List.nodup_cons]
        refine ⟨?_, hrec.2.1⟩
        intro hmem
        have h2 := (hrec.2.2.1 fp).mp hmem
        exact h2.2 ((hkeys2 fp).mpr (Or.inr rfl))
    -- read log membership
      · intro x
        rw [List.mem_cons, hrec.2.2.1 x, hkeys2 x]
        constructor
        · rintro (hx | ⟨hx1, hx2⟩)
          · subst hx
            exact ⟨List.mem_cons_self _ _, hkey⟩
          · refine ⟨List.mem_cons_of_mem fp hx1, ?_⟩
            intro hc
            exact hx2 (Or.inl hc)
        · rintro ⟨hx1, hx2⟩
          rcases List.mem_cons.mp hx1 with hx | hx
          · exact Or.inl hx
          · by_cases hxfp : x = fp
            · exact Or.inl hxfp
            · refine Or.inr ⟨hx, ?_⟩
              rintro (hc | hc)
              · exact hx2 hc
              · exact hxfp hc
    -- final cache keys
      · intro x
        rw [hrec.2.2.2.2.2 x, hkeys2 x, List.mem_cons]
        constructor
        · rintro ((hx | hx) | hx)
          · exact Or.inl hx
          · exact Or.inr (Or.inl hx)
          · exact Or.inr (Or.inr hx)
        · rintro (hx | (hx | hx))
          · exact Or.inl (Or.inl hx)
          · exact Or.inl (Or.inr hx)
          · exact Or.inr hx

/-- C7: starting from an empty cache, a run's loads return the parse of
each requested source (so repeated loads of the same identifier return the
identical snapshot), the set of sources actually read is exactly the set of
distinct requested sources, each read at most once; and an immediately
repeated load is a cache hit that returns the same snapshot, leaves the
cache unchanged and reads nothing. -/
theorem claim_c7 (fs : String → Snapshot) (fps : List String) :
    (loadSeq fs [] fps).1 = fps.map fs ∧
    (loadSeq fs [] fps).2.2.Nodup ∧
    (∀ x, x ∈ (loadSeq fs [] fps).2.2 ↔ x ∈ fps) ∧
    (∀ cache fp, loadStep fs (loadStep fs cache fp).2.1 fp =
      ((loadStep fs cache fp).1, (loadStep fs cache fp).2.1, [])) := by
  have h := loadSeq_ok fs fps [] (by simp) (by simp)
  refine ⟨h.1, h.2.1, ?_, ?_⟩
  · intro x
    rw [h.2.2.1 x]
    simp
  · intro cache fp
    by_cases hhit : cache.any (fun p => p.1 == fp) = true
    · have hstep : loadStep fs cache fp = (dictGet cache fp [], cache, []) := by
        unfold loadStep
        rw [if_pos hhit]
      rw [hstep]
      exact hstep
    · have hmiss : loadStep fs cache fp = (fs fp, cache ++ [(fp, fs fp)], [fp]) := by
        unfold loadStep
        rw [if_neg (by simpa using hhit)]
      rw [hmiss]
      have hhit2 : (cache ++ [(fp, fs fp)]).any (fun p => p.1 == fp) = true := by
        rw [List.any_append]
        simp
      have hfilter : cache.filter (fun p => p.1 == fp) = [] := by
        rw [List.filter_eq_nil_iff]
        intro p hp hpk
        exact hhit (List.any_eq_true.mpr ⟨p, hp, hpk⟩)
      unfold loadStep
      rw [if_pos hhit2]
      unfold dictGet
      rw [List.filter_append, hfilter]
      simp

theorem claim_c7_witness :
    (loadSeq (fun _ => demoSnap) [] ["a", "b", "a"]).1 =
      ["a", "b", "a"].map (fun _ => demoSnap) :=
  (claim_c7 (fun _ => demoSnap) ["a", "b", "a"]).1

/-! ### Claim C5: pair enumeration order -/

theorem allPairs_map {α : Type} (f : α → String) (l : List α) :
    allPairs (l.map f) = (entryPairs l).map (fun q => (f q.1, f q.2)) := by
  induction l with
  | nil => rfl
  | cons x xs ih =>
    have h1 : allPairs ((x :: xs).map f) =
        (xs.map f).map (fun y => (f x, y)) ++ allPairs (xs.map f) := rfl
    have h2 : entryPairs (x :: xs) = xs.map (fun y => (x, y)) ++ entryPairs xs := rfl
    rw [h1, h2, ih, List.map_append, List.map_map, List.map_map]
    rfl

theorem mem_entryPairs {α : Type} {q : α × α} {l : List α}
    (h : q ∈ entryPairs l) : q.1 ∈ l ∧ q.2 ∈ l := by
  induction l with
  | nil => cases h
  | cons x xs ih =>
    rcases List.mem_append.mp h with hm | hm
    · rcases List.mem_map.mp hm with ⟨y, hy, hye⟩
      rw [← hye]
      exact ⟨List.mem_cons_self _ _, List.mem_cons_of_mem _ hy⟩
    · rcases ih hm with ⟨ha, hb⟩
      exact ⟨List.mem_cons_of_mem x ha, List.mem_cons_of_mem x hb⟩

/-- C5: for distinctly-labelled entries, the comparison phase runs the pair
comparison exactly over the pairs (i, j) with i before j in input order (i
as db1), in that enumeration order, concatenating the per-pair outputs with
no further re-sort — i.e. it coincides with the spec's `compareAll`. -/
theorem claim_c5 (entries : List (String × Snapshot))
    (h : (entries.map Prod.fst).Nodup) :
    compareAll entries = specCompareAll entries := by
  unfold compareAll specCompareAll
  rw [buildMap_of_nodup h]
  show (allPairs (entries.map (fun p => p.1))).flatMap
      (fun q => compareTables q.1 (dictGet entries q.1 []) q.2 (dictGet entries q.2 [])) = _
  rw [allPairs_map (fun p => p.1) entries, List.flatMap_map]
  apply List.flatMap_congr
  intro q hq
  rcases mem_entryPairs hq with ⟨h1, h2⟩
  have e1 : dictGet entries q.1.1 [] = q.1.2 :=
    dictGet_of_mem h (by rw [Prod.mk.eta]; exact h1)
  have e2 : dictGet entries q.2.1 [] = q.2.2 :=
    dictGet_of_mem h (by rw [Prod.mk.eta]; exact h2)
  rw [e1, e2]

/-- A second concrete snapshot used by witnesses. -/
def demoSnap2 : Snapshot := [("orders", [⟨"id", "integer", "NO"⟩])]

theorem claim_c5_witness :
    (([("db1", demoSnap), ("db2", demoSnap2)].map Prod.fst).Nodup) ∧
    compareAll [("db1", demoSnap), ("db2", demoSnap2)] =
      specCompareAll [("db1", demoSnap), ("db2", demoSnap2)] :=
  ⟨by decide, claim_c5 [("db1", demoSnap), ("db2", demoSnap2)] (by decide)⟩

/-! ### Claim C10: duplicate labels -/

theorem nodup_insert_middle {k1 k2 : List String} {L : String}
    (h : (k1 ++ k2).Nodup) (h1 : L ∉ k1) (h2 : L ∉ k2) :
    (k1 ++ L :: k2).Nodup := by
  apply List.perm_middle.symm.nodup
  rw [List.nodup_cons]
  exact ⟨fun hc => (List.mem_append.mp hc).elim h1 h2, h⟩

/-- C10: when two entries carry the same label, the later entry's snapshot
silently replaces the earlier one in the label map before any comparison
runs; the earlier snapshot never participates (the run behaves exactly as
if the duplicate-labelled entry had carried only the later snapshot, so the
comparison output is identical to that of the deduplicated input), and the
number of compared databases is one less than the number of entries. -/
theorem claim_c10 (e1 e2 e3 : List (String × Snapshot)) (L : String)
    (s1 s2 : Snapshot)
    (hnd : ((e1 ++ e2 ++ e3).map Prod.fst).Nodup)
    (h1 : L ∉ e1.map Prod.fst) (h2 : L ∉ e2.map Prod.fst)
    (h3 : L ∉ e3.map Prod.fst) :
    buildMap (e1 ++ (L, s1) :: e2 ++ (L, s2) :: e3) = e1 ++ (L, s2) :: e2 ++ e3 ∧
    dictGet (buildMap (e1 ++ (L, s1) :: e2 ++ (L, s2) :: e3)) L [] = s2 ∧
    compareAll (e1 ++ (L, s1) :: e2 ++ (L, s2) :: e3) =
      compareAll (e1 ++ (L, s2) :: e2 ++ e3) ∧
    (buildMap (e1 ++ (L, s1) :: e2 ++ (L, s2) :: e3)).length + 1 =
      (e1 ++ (L, s1) :: e2 ++ (L, s2) :: e3).length := by
  have hndflat : (e1.map Prod.fst ++ (e2.map Prod.fst ++ e3.map Prod.fst)).Nodup := by
    have := hnd
    simp only [List.map_append] at this
    rw [List.append_assoc] at this
    exact this
  have h12 : (e1.map Prod.fst ++ e2.map Prod.fst).Nodup := by
    have := hnd
    simp only [List.map_append] at this
    exact (List.nodup_append.mp this).1
  have hkeysP : ((e1 ++ (L, s1) :: e2).map Prod.fst).Nodup := by
    have e : (e1 ++ (L, s1) :: e2).map Prod.fst =
        e1.map Prod.fst ++ L :: e2.map Prod.fst := by simp
    rw [e]
    exact nodup_insert_middle h12 h1 h2
  have hq : ((e1 ++ (L, s2) :: e2 ++ e3).map Prod.fst).Nodup := by
    have e : (e1 ++ (L, s2) :: e2 ++ e3).map Prod.fst =
        e1.map Prod.fst ++ L :: (e2.map Prod.fst ++ e3.map Prod.fst) := by simp
    rw [e]
    exact nodup_insert_middle hndflat h1 (fun hc =>
      (List.mem_append.mp hc).elim h2 h3)
  have hmain : buildMap (e1 ++ (L, s1) :: e2 ++ (L, s2) :: e3) =
      e1 ++ (L, s2) :: e2 ++ e3 := by
    unfold buildMap
    have hsplit : e1 ++ (L, s1) :: e2 ++ (L, s2) :: e3 =
        (e1 ++ (L, s1) :: e2) ++ ((L, s2) :: e3) := by
      simp [List.append_assoc]
    rw [hsplit, List.foldl_append]
    have hpre : (e1 ++ (L, s1) :: e2).foldl (fun a e => dictInsert a e.1 e.2) [] =
        e1 ++ (L, s1) :: e2 := by
      have := foldl_dictInsert_fresh (e1 ++ (L, s1) :: e2) [] (by simpa using hkeysP)
      simpa using this
    rw [hpre, List.foldl_cons]
    have hins : dictInsert (e1 ++ (L, s1) :: e2) L s2 = e1 ++ (L, s2) :: e2 := by
      unfold dictInsert
      have hany : (e1 ++ (L, s1) :: e2).any (fun p => p.1 == L) = true :=
        List.any_eq_true.mpr ⟨(L, s1), by simp, by simp⟩
      rw [if_pos hany, List.map_append, List.map_cons]
      have hm1 : e1.map (fun p => if p.1 == L then (L, s2) else p) = e1 := by
        have he : e1.map (fun p => if p.1 == L then (L, s2) else p) = e1.map id :=
          List.map_congr_left (fun p hp => by
            have hne : (p.1 == L) = false := by
              rw [beq_eq_false_iff_ne]
              intro hk
              exact h1 (hk ▸ List.mem_map_of_mem Prod.fst hp)
            simp [hne])
        rw [he, List.map_id]
      have hm2 : e2.map (fun p => if p.1 == L then (L, s2) else p) = e2 := by
        have he : e2.map (fun p => if p.1 == L then (L, s2) else p) = e2.map id :=
          List.map_congr_left (fun p hp => by
            have hne : (p.1 == L) = false := by
              rw [beq_eq_false_iff_ne]
              intro hk
              exact h2 (hk ▸ List.mem_map_of_mem Prod.fst hp)
            simp [hne])
        rw [he, List.map_id]
      rw [hm1, hm2]
      simp
    rw [hins]
    have hpost := foldl_dictInsert_fresh e3 (e1 ++ (L, s2) :: e2) (by
      have e : (e1 ++ (L, s2) :: e2).map Prod.fst ++ e3.map Prod.fst =
          (e1 ++ (L, s2) :: e2 ++ e3).map Prod.fst := by simp
      rw [e]
      exact hq)
    rw [hpost, List.append_assoc]
  refine ⟨hmain, ?_, ?_, ?_⟩
  · rw [hmain]
    apply dictGet_of_mem hq
    simp
  · unfold compareAll
    rw [hmain, buildMap_of_nodup hq]
  · rw [hmain]
    simp only [List.length_append, List.length_cons]
    omega

theorem claim_c10_witness :
    ((([("a", demoSnap2)] ++ [] ++ [("z", demoSnap)]).map Prod.fst).Nodup) ∧
    buildMap ([("a", demoSnap2)] ++ ("db", demoSnap) :: [] ++
        ("db", demoSnap2) :: [("z", demoSnap)]) =
      [("a", demoSnap2)] ++ ("db", demoSnap2) :: [] ++ [("z", demoSnap)] :=
  ⟨by decide, (claim_c10 [("a", demoSnap2)] [] [("z", demoSnap)] "db" demoSnap demoSnap2
    (by decide) (by decide) (by decide) (by decide)).1⟩

/-! ### Generic counting lemmas for mapped segments -/

theorem count_map_inj {β : Type} [DecidableEq β] {f : String → β}
    (hf : ∀ a b, f a = f b → a = b) (lst : List String) (t : String) :
    (lst.map f).count (f t) = lst.count t := by
  rw [List.count_eq_countP, List.countP_map, List.count_eq_countP]
  apply List.countP_congr
  intro x _
  simp only [Function.comp_apply]
  constructor
  · intro hb
    exact beq_iff_eq.mpr (hf x t (beq_iff_eq.mp hb))
  · intro hb
    rw [beq_iff_eq.mp hb]
    exact beq_iff_eq.mpr rfl

theorem countP_map_key (p : Difference → Bool) (f : String → Difference)
    (t : String) (hpf : ∀ x, p (f x) = (x == t)) (lst : List String) :
    (lst.map f).countP p = lst.count t := by
  rw [List.countP_map, List.count_eq_countP]
  apply List.countP_congr
  intro x _
  simp only [Function.comp_apply, hpf]

/-! ### Shapes of the comparison outputs -/

theorem mem_compareColumns_cases {d : Difference} {t : String}
    {cols1 cols2 : List Column} {l1 l2 : String}
    (hd : d ∈ compareColumns t cols1 cols2 l1 l2) :
    (∃ n, n ∈ sortedSetDiff (cols1.map Column.column_name) (cols2.map Column.column_name) ∧
      d = missingColDiff l1 l2 t n (colOf cols1 n)) ∨
    (∃ n, n ∈ sortedSetDiff (cols2.map Column.column_name) (cols1.map Column.column_name) ∧
      d = extraColDiff l1 l2 t n (colOf cols2 n)) ∨
    (∃ n, n ∈ sortedSetInter (cols1.map Column.column_name) (cols2.map Column.column_name) ∧
      ((colOf cols1 n).data_type ≠ (colOf cols2 n).data_type ∨
       (colOf cols1 n).is_nullable ≠ (colOf cols2 n).is_nullable) ∧
      d = mismatchDiff l1 l2 t n (colOf cols1 n) (colOf cols2 n)) := by
  rw [compareColumns_eq] at hd
  rcases List.mem_append.mp hd with hd1 | hd3
  · rcases List.mem_append.mp hd1 with hd1 | hd2
    · rcases List.mem_map.mp hd1 with ⟨n, hn, hne⟩
      exact Or.inl ⟨n, hn, hne.symm⟩
    · rcases List.mem_map.mp hd2 with ⟨n, hn, hne⟩
      exact Or.inr (Or.inl ⟨n, hn, hne.symm⟩)
  · rcases List.mem_flatMap.mp hd3 with ⟨n, hn, hdn⟩
    by_cases hc : (colOf cols1 n).data_type ≠ (colOf cols2 n).data_type ∨
        (colOf cols1 n).is_nullable ≠ (colOf cols2 n).is_nullable
    · rw [if_pos hc] at hdn
      exact Or.inr (Or.inr ⟨n, hn, hc, (List.mem_singleton.mp hdn)⟩)
    · rw [if_neg hc] at hdn
      cases hdn

theorem compareColumns_table {d : Difference} {t : String}
    {cols1 cols2 : List Column} {l1 l2 : String}
    (hd : d ∈ compareColumns t cols1 cols2 l1 l2) : d.table_name = t := by
  rcases mem_compareColumns_cases hd with ⟨n, _, he⟩ | ⟨n, _, he⟩ | ⟨n, _, _, he⟩ <;>
    rw [he] <;> rfl

theorem compareColumns_kind {d : Difference} {t : String}
    {cols1 cols2 : List Column} {l1 l2 : String}
    (hd : d ∈ compareColumns t cols1 cols2 l1 l2) :
    d.diff_type = "MISSING_COLUMN" ∨ d.diff_type = "EXTRA_COLUMN" ∨
    d.diff_type = "COLUMN_MISMATCH" := by
  rcases mem_compareColumns_cases hd with ⟨n, _, he⟩ | ⟨n, _, he⟩ | ⟨n, _, _, he⟩
  · exact Or.inl (by rw [he]; rfl)
  · exact Or.inr (Or.inl (by rw [he]; rfl))
  · exact Or.inr (Or.inr (by rw [he]; rfl))

theorem tableCols_of_mem {m : Snapshot} {t : String} {cols : List Column}
    (hk : (m.map Prod.fst).Nodup) (h : (t, cols) ∈ m) : tableCols m t = cols :=
  dictGet_of_mem hk h

/-! ### Counting inside one table's column comparison -/

theorem compareColumns_count_missing {t : String} {cols1 cols2 : List Column}
    {l1 l2 c : String} {col : Column}
    (hn1 : (cols1.map Column.column_name).Nodup)
    (hmem : col ∈ cols1) (hname : col.column_name = c)
    (hc2 : c ∉ cols2.map Column.column_name) :
    (compareColumns t cols1 cols2 l1 l2).count (missingColDiff l1 l2 t c col) = 1 ∧
    (compareColumns t cols1 cols2 l1 l2).countP
      (fun d => d.diff_type == "MISSING_COLUMN" && d.table_name == t &&
        d.column_name == c) = 1 := by
  have hcolOf : colOf cols1 c = col := by
    rw [← hname]
    exact colOf_of_mem hn1 hmem
  have hc1 : c ∈ cols1.map Column.column_name := by
    rw [← hname]
    exact List.mem_map_of_mem Column.column_name hmem
  have hfEM : (("EXTRA_COLUMN" : String) == "MISSING_COLUMN") = false := by decide
  have hfMM : (("COLUMN_MISMATCH" : String) == "MISSING_COLUMN") = false := by decide
  constructor
  · rw [compareColumns_eq, List.count_append, List.count_append]
    have hA : ((sortedSetDiff (cols1.map Column.column_name)
        (cols2.map Column.column_name)).map
          (fun n => missingColDiff l1 l2 t n (colOf cols1 n))).count
          (missingColDiff l1 l2 t c col) = 1 := by
      rw [← hcolOf]
      have hinj : ∀ a b : String,
          (fun n => missingColDiff l1 l2 t n (colOf cols1 n)) a =
          (fun n => missingColDiff l1 l2 t n (colOf cols1 n)) b → a = b := by
        intro a b hab
        have h2 := congrArg Difference.column_name hab
        simpa [missingColDiff] using h2
      have hcnt := count_map_inj (f := fun n => missingColDiff l1 l2 t n (colOf cols1 n))
        hinj (sortedSetDiff (cols1.map Column.column_name) (cols2.map Column.column_name)) c
      exact hcnt.trans (count_sortedSetDiff hc1 hc2)
    have hB : ((sortedSetDiff (cols2.map Column.column_name)
        (cols1.map Column.column_name)).map
          (fun n => extraColDiff l1 l2 t n (colOf cols2 n))).count
          (missingColDiff l1 l2 t c col) = 0 := by
      rw [List.count_eq_zero]
      intro hm
      rcases List.mem_map.mp hm with ⟨n, _, hne⟩
      have := congrArg Difference.diff_type hne
      simp only [extraColDiff, missingColDiff] at this
      exact absurd this (by decide)
    have hC : ((sortedSetInter (cols1.map Column.column_name)
        (cols2.map Column.column_name)).flatMap (fun n =>
          if (colOf cols1 n).data_type ≠ (colOf cols2 n).data_type ∨
             (colOf cols1 n).is_nullable ≠ (colOf cols2 n).is_nullable then
            [mismatchDiff l1 l2 t n (colOf cols1 n) (colOf cols2 n)]
          else [])).count (missingColDiff l1 l2 t c col) = 0 := by
      rw [List.count_eq_zero]
      intro hm
      rcases List.mem_flatMap.mp hm with ⟨n, _, hdn⟩
      by_cases hcnd : (colOf cols1 n).data_type ≠ (colOf cols2 n).data_type ∨
          (colOf cols1 n).is_nullable ≠ (colOf cols2 n).is_nullable
      · rw [if_pos hcnd] at hdn
        have hne := List.mem_singleton.mp hdn
        have := congrArg Difference.diff_type hne
        simp only [mismatchDiff, missingColDiff] at this
        exact absurd this (by decide)
      · rw [if_neg hcnd] at hdn
        cases hdn
    rw [hA, hB, hC]
  · rw [compareColumns_eq, List.countP_append, List.countP_append]
    have hA : ((sortedSetDiff (cols1.map Column.column_name)
        (cols2.map Column.column_name)).map
          (fun n => missingColDiff l1 l2 t n (colOf cols1 n))).countP
          (fun d => d.diff_type == "MISSING_COLUMN" && d.table_name == t &&
            d.column_name == c) = 1 := by
      rw [countP_map_key _ _ c (fun x => by simp [missingColDiff])]
      exact count_sortedSetDiff hc1 hc2
    have hB : ((sortedSetDiff (cols2.map Column.column_name)
        (cols1.map Column.column_name)).map
          (fun n => extraColDiff l1 l2 t n (colOf cols2 n))).countP
          (fun d => d.diff_type == "MISSING_COLUMN" && d.table_name == t &&
            d.column_name == c) = 0 := by
      rw [List.countP_eq_zero]
      intro d hd
      rcases List.mem_map.mp hd with ⟨n, _, hne⟩
      rw [← hne]
      simp [extraColDiff, hfEM]
    have hC : ((sortedSetInter (cols1.map Column.column_name)
        (cols2.map Column.column_name)).flatMap (fun n =>
          if (colOf cols1 n).data_type ≠ (colOf cols2 n).data_type ∨
             (colOf cols1 n).is_nullable ≠ (colOf cols2 n).is_nullable then
            [mismatchDiff l1 l2 t n (colOf cols1 n) (colOf cols2 n)]
          else [])).countP
          (fun d => d.diff_type == "MISSING_COLUMN" && d.table_name == t &&
            d.column_name == c) = 0 := by
      rw [List.countP_eq_zero]
      intro d hd
      rcases List.mem_flatMap.mp hd with ⟨n, _, hdn⟩
      by_cases hcnd : (colOf cols1 n).data_type ≠ (colOf cols2 n).data_type ∨
          (colOf cols1 n).is_nullable ≠ (colOf cols2 n).is_nullable
      · rw [if_pos hcnd] at hdn
        rw [List.mem_singleton.mp hdn]
        simp [mismatchDiff, hfMM]
      · rw [if_neg hcnd] at hdn
        cases hdn
    rw [hA, hB, hC]

theorem compareColumns_count_extra {t : String} {cols1 cols2 : List Column}
    {l1 l2 c : String} {col : Column}
    (hn2 : (cols2.map Column.column_name).Nodup)
    (hmem : col ∈ cols2) (hname : col.column_name = c)
    (hc1 : c ∉ cols1.map Column.column_name) :
    (compareColumns t cols1 cols2 l1 l2).count (extraColDiff l1 l2 t c col) = 1 ∧
    (compareColumns t cols1 cols2 l1 l2).countP
      (fun d => d.diff_type == "EXTRA_COLUMN" && d.table_name == t &&
        d.column_name == c) = 1 := by
  have hcolOf : colOf cols2 c = col := by
    rw [← hname]
    exact colOf_of_mem hn2 hmem
  have hc2 : c ∈ cols2.map Column.column_name := by
    rw [← hname]
    exact List.mem_map_of_mem Column.column_name hmem
  have hfME : (("MISSING_COLUMN" : String) == "EXTRA_COLUMN") = false := by decide
  have hfMME : (("COLUMN_MISMATCH" : String) == "EXTRA_COLUMN") = false := by decide
  constructor
  · rw [compareColumns_eq, List.count_append, List.count_append]
    have hA : ((sortedSetDiff (cols1.map Column.column_name)
        (cols2.map Column.column_name)).map
          (fun n => missingColDiff l1 l2 t n (colOf cols1 n))).count
          (extraColDiff l1 l2 t c col) = 0 := by
      rw [List.count_eq_zero]
      intro hm
      rcases List.mem_map.mp hm with ⟨n, _, hne⟩
      have := congrArg Difference.diff_type hne
      simp only [extraColDiff, missingColDiff] at this
      exact absurd this (by decide)
    have hB : ((sortedSetDiff (cols2.map Column.column_name)
        (cols1.map Column.column_name)).map
          (fun n => extraColDiff l1 l2 t n (colOf cols2 n))).count
          (extraColDiff l1 l2 t c col) = 1 := by
      rw [← hcolOf]
      have hinj : ∀ a b : String,
          (fun n => extraColDiff l1 l2 t n (colOf cols2 n)) a =
          (fun n => extraColDiff l1 l2 t n (colOf cols2 n)) b → a = b := by
        intro a b hab
        have h2 := congrArg Difference.column_name hab
        simpa [extraColDiff] using h2
      have hcnt := count_map_inj (f := fun n => extraColDiff l1 l2 t n (colOf cols2 n))
        hinj (sortedSetDiff (cols2.map Column.column_name) (cols1.map Column.column_name)) c
      exact hcnt.trans (count_sortedSetDiff hc2 hc1)
    have hC : ((sortedSetInter (cols1.map Column.column_name)
        (cols2.map Column.column_name)).flatMap (fun n =>
          if (colOf cols1 n).data_type ≠ (colOf cols2 n).data_type ∨
             (colOf cols1 n).is_nullable ≠ (colOf cols2 n).is_nullable then
            [mismatchDiff l1 l2 t n (colOf cols1 n) (colOf cols2 n)]
          else [])).count (extraColDiff l1 l2 t c col) = 0 := by
      rw [List.count_eq_zero]
      intro hm
      rcases List.mem_flatMap.mp hm with ⟨n, _, hdn⟩
      by_cases hcnd : (colOf cols1 n).data_type ≠ (colOf cols2 n).data_type ∨
          (colOf cols1 n).is_nullable ≠ (colOf cols2 n).is_nullable
      · rw [if_pos hcnd] at hdn
        have hne := List.mem_singleton.mp hdn
        have := congrArg Difference.diff_type hne
        simp only [mismatchDiff, extraColDiff] at this
        exact absurd this (by decide)
      · rw [if_neg hcnd] at hdn
        cases hdn
    rw [hA, hB, hC]
  · rw [compareColumns_eq, List.countP_append, List.countP_append]
    have hA : ((sortedSetDiff (cols1.map Column.column_name)
        (cols2.map Column.column_name)).map
          (fun n => missingColDiff l1 l2 t n (colOf cols1 n))).countP
          (fun d => d.diff_type == "EXTRA_COLUMN" && d.table_name == t &&
            d.column_name == c) = 0 := by
      rw [List.countP_eq_zero]
      intro d hd
      rcases List.mem_map.mp hd with ⟨n, _, hne⟩
      rw [← hne]
      simp [missingColDiff, hfME]
    have hB : ((sortedSetDiff (cols2.map Column.column_name)
        (cols1.map Column.column_name)).map
          (fun n => extraColDiff l1 l2 t n (colOf cols2 n))).countP
          (fun d => d.diff_type == "EXTRA_COLUMN" && d.table_name == t &&
            d.column_name == c) = 1 := by
      rw [countP_map_key _ _ c (fun x => by simp [extraColDiff])]
      exact count_sortedSetDiff hc2 hc1
    have hC : ((sortedSetInter (cols1.map Column.column_name)
        (cols2.map Column.column_name)).flatMap (fun n =>
          if (colOf cols1 n).data_type ≠ (colOf cols2 n).data_type ∨
             (colOf cols1 n).is_nullable ≠ (colOf cols2 n).is_nullable then
            [mismatchDiff l1 l2 t n (colOf cols1 n) (colOf cols2 n)]
          else [])).countP
          (fun d => d.diff_type == "EXTRA_COLUMN" && d.table_name == t &&
            d.column_name == c) = 0 := by
      rw [List.countP_eq_zero]
      intro d hd
      rcases List.mem_flatMap.mp hd with ⟨n, _, hdn⟩
      by_cases hcnd : (colOf cols1 n).data_type ≠ (colOf cols2 n).data_type ∨
          (colOf cols1 n).is_nullable ≠ (colOf cols2 n).is_nullable
      · rw [if_pos hcnd] at hdn
        rw [List.mem_singleton.mp hdn]
        simp [mismatchDiff, hfMME]
      · rw [if_neg hcnd] at hdn
        cases hdn
    rw [hA, hB, hC]

theorem compareColumns_count_mismatch {t : String} {cols1 cols2 : List Column}
    {l1 l2 c : String} {col1 col2 : Column}
    (hn1 : (cols1.map Column.column_name).Nodup)
    (hn2 : (cols2.map Column.column_name).Nodup)
    (h1 : col1 ∈ cols1) (h2 : col2 ∈ cols2)
    (hname1 : col1.column_name = c) (hname2 : col2.column_name = c)
    (hdiff : col1.data_type ≠ col2.data_type ∨ col1.is_nullable ≠ col2.is_nullable) :
    (compareColumns t cols1 cols2 l1 l2).count (mismatchDiff l1 l2 t c col1 col2) = 1 ∧
    (compareColumns t cols1 cols2 l1 l2).countP
      (fun d => d.diff_type == "COLUMN_MISMATCH" && d.table_name == t &&
        d.column_name == c) = 1 := by
  have hcolOf1 : colOf cols1 c = col1 := by
    rw [← hname1]
    exact colOf_of_mem hn1 h1
  have hcolOf2 : colOf cols2 c = col2 := by
    rw [← hname2]
    exact colOf_of_mem hn2 h2
  have hc1 : c ∈ cols1.map Column.column_name := by
    rw [← hname1]
    exact List.mem_map_of_mem Column.column_name h1
  have hc2 : c ∈ cols2.map Column.column_name := by
    rw [← hname2]
    exact List.mem_map_of_mem Column.column_name h2
  have hgc : (if (colOf cols1 c).data_type ≠ (colOf cols2 c).data_type ∨
        (colOf cols1 c).is_nullable ≠ (colOf cols2 c).is_nullable then
        [mismatchDiff l1 l2 t c (colOf cols1 c) (colOf cols2 c)]
      else []) = [mismatchDiff l1 l2 t c col1 col2] := by
    rw [hcolOf1, hcolOf2, if_pos hdiff]
  have hfMm : (("MISSING_COLUMN" : String) == "COLUMN_MISMATCH") = false := by decide
  have hfEm : (("EXTRA_COLUMN" : String) == "COLUMN_MISMATCH") = false := by decide
  constructor
  · rw [compareColumns_eq, List.count_append, List.count_append]
    have hA : ((sortedSetDiff (cols1.map Column.column_name)
        (cols2.map Column.column_name)).map
          (fun n => missingColDiff l1 l2 t n (colOf cols1 n))).count
          (mismatchDiff l1 l2 t c col1 col2) = 0 := by
      rw [List.count_eq_zero]
      intro hm
      rcases List.mem_map.mp hm with ⟨n, _, hne⟩
      have := congrArg Difference.diff_type hne
      simp only [mismatchDiff, missingColDiff] at this
      exact absurd this (by decide)
    have hB : ((sortedSetDiff (cols2.map Column.column_name)
        (cols1.map Column.column_name)).map
          (fun n => extraColDiff l1 l2 t n (colOf cols2 n))).count
          (mismatchDiff l1 l2 t c col1 col2) = 0 := by
      rw [List.count_eq_zero]
      intro hm
      rcases List.mem_map.mp hm with ⟨n, _, hne⟩
      have := congrArg Difference.diff_type hne
      simp only [mismatchDiff, extraColDiff] at this
      exact absurd this (by decide)
    have hC : ((sortedSetInter (cols1.map Column.column_name)
        (cols2.map Column.column_name)).flatMap (fun n =>
          if (colOf cols1 n).data_type ≠ (colOf cols2 n).data_type ∨
             (colOf cols1 n).is_nullable ≠ (colOf cols2 n).is_nullable then
            [mismatchDiff l1 l2 t n (colOf cols1 n) (colOf cols2 n)]
          else [])).count (mismatchDiff l1 l2 t c col1 col2) = 1 := by
      rw [List.count_eq_countP]
      rw [countP_flatMap_single _ _ (sortedSetInter_nodup _ _)
        (mem_sortedSetInter.mpr ⟨hc1, hc2⟩) ?zeros]
      case zeros =>
        intro n _ hnc
        rw [List.countP_eq_zero]
        intro d hd
        by_cases hcnd : (colOf cols1 n).data_type ≠ (colOf cols2 n).data_type ∨
            (colOf cols1 n).is_nullable ≠ (colOf cols2 n).is_nullable
        · rw [if_pos hcnd] at hd
          rw [List.mem_singleton.mp hd]
          intro hb
          have := congrArg Difference.column_name (beq_iff_eq.mp hb)
          simp only [mismatchDiff] at this
          exact hnc this
        · rw [if_neg hcnd] at hd
          cases hd
      rw [hgc]
      simp
    rw [hA, hB, hC]
  · rw [compareColumns_eq, List.countP_append, List.countP_append]
    have hA : ((sortedSetDiff (cols1.map Column.column_name)
        (cols2.map Column.column_name)).map
          (fun n => missingColDiff l1 l2 t n (colOf cols1 n))).countP
          (fun d => d.diff_type == "COLUMN_MISMATCH" && d.table_name == t &&
            d.column_name == c) = 0 := by
      rw [List.countP_eq_zero]
      intro d hd
      rcases List.mem_map.mp hd with ⟨n, _, hne⟩
      rw [← hne]
      simp [missingColDiff, hfMm]
    have hB : ((sortedSetDiff (cols2.map Column.column_name)
        (cols1.map Column.column_name)).map
          (fun n => extraColDiff l1 l2 t n (colOf cols2 n))).countP
          (fun d => d.diff_type == "COLUMN_MISMATCH" && d.table_name == t &&
            d.column_name == c) = 0 := by
      rw [List.countP_eq_zero]
      intro d hd
      rcases List.mem_map.mp hd with ⟨n, _, hne⟩
      rw [← hne]
      simp [extraColDiff, hfEm]
    have hC : ((sortedSetInter (cols1.map Column.column_name)
        (cols2.map Column.column_name)).flatMap (fun n =>
          if (colOf cols1 n).data_type ≠ (colOf cols2 n).data_type ∨
             (colOf cols1 n).is_nullable ≠ (colOf cols2 n).is_nullable then
            [mismatchDiff l1 l2 t n (colOf cols1 n) (colOf cols2 n)]
          else [])).countP
          (fun d => d.diff_type == "COLUMN_MISMATCH" && d.table_name == t &&
            d.column_name == c) = 1 := by
      rw [countP_flatMap_single _ _ (sortedSetInter_nodup _ _)
        (mem_sortedSetInter.mpr ⟨hc1, hc2⟩) ?zeros]
      case zeros =>
        intro n _ hnc
        rw [List.countP_eq_zero]
        intro d hd
        by_cases hcnd : (colOf cols1 n).data_type ≠ (colOf cols2 n).data_type ∨
            (colOf cols1 n).is_nullable ≠ (colOf cols2 n).is_nullable
        · rw [if_pos hcnd] at hd
          rw [List.mem_singleton.mp hd]
          intro hb
          have hcol := (Bool.and_eq_true _ _ ▸ hb).2
          have := beq_iff_eq.mp hcol
          simp only [mismatchDiff] at this
          exact hnc this
        · rw [if_neg hcnd] at hd
          cases hd
      rw [hgc]
      simp [mismatchDiff]
    rw [hA, hB, hC]

theorem compareColumns_count_identical {t : String} {cols1 cols2 : List Column}
    {l1 l2 c : String} {col : Column}
    (hn1 : (cols1.map Column.column_name).Nodup)
    (hn2 : (cols2.map Column.column_name).Nodup)
    (h1 : col ∈ cols1) (h2 : col ∈ cols2) (hname : col.column_name = c) :
    (compareColumns t cols1 cols2 l1 l2).countP
      (fun d => d.table_name == t && d.column_name == c) = 0 := by
  have hcolOf1 : colOf cols1 c = col := by
    rw [← hname]
    exact colOf_of_mem hn1 h1
  have hcolOf2 : colOf cols2 c = col := by
    rw [← hname]
    exact colOf_of_mem hn2 h2
  have hc1 : c ∈ cols1.map Column.column_name := by
    rw [← hname]
    exact List.mem_map_of_mem Column.column_name h1
  have hc2 : c ∈ cols2.map Column.column_name := by
    rw [← hname]
    exact List.mem_map_of_mem Column.column_name h2
  rw [List.countP_eq_zero]
  intro d hd hp
  have hcol := (Bool.and_eq_true _ _ ▸ hp).2
  have hdc : d.column_name = c := beq_iff_eq.mp hcol
  rcases mem_compareColumns_cases hd with ⟨n, hn, he⟩ | ⟨n, hn, he⟩ | ⟨n, hn, hcond, he⟩
  · have hnc : n = c := by
      rw [he] at hdc
      simpa [missingColDiff] using hdc
    exact (mem_sortedSetDiff.mp hn).2 (hnc ▸ hc2)
  · have hnc : n = c := by
      rw [he] at hdc
      simpa [extraColDiff] using hdc
    exact (mem_sortedSetDiff.mp hn).2 (hnc ▸ hc1)
  · have hnc : n = c := by
      rw [he] at hdc
      simpa [mismatchDiff] using hdc
    rw [hnc, hcolOf1, hcolOf2] at hcond
    rcases hcond with hcond | hcond <;> exact hcond rfl

/-! ### Counting at the table level -/

theorem compareTables_count_missing_table {l1 l2 t : String} {m1 m2 : Snapshot}
    (ht1 : t ∈ m1.map Prod.fst) (ht2 : t ∉ m2.map Prod.fst) :
    (compareTables l1 m1 l2 m2).count (missingTableDiff l1 l2 t) = 1 ∧
    (compareTables l1 m1 l2 m2).countP
      (fun d => d.diff_type == "MISSING_TABLE" && d.table_name == t) = 1 := by
  have hfE : (("EXTRA_TABLE" : String) == "MISSING_TABLE") = false := by decide
  constructor
  · rw [compareTables_eq, List.count_append, List.count_append]
    have hA : ((sortedSetDiff (m1.map Prod.fst) (m2.map Prod.fst)).map
        (fun x => missingTableDiff l1 l2 x)).count (missingTableDiff l1 l2 t) = 1 := by
      have hinj : ∀ a b : String,
          (fun x => missingTableDiff l1 l2 x) a =
          (fun x => missingTableDiff l1 l2 x) b → a = b := by
        intro a b hab
        have h2 := congrArg Difference.table_name hab
        simpa [missingTableDiff] using h2
      have hcnt := count_map_inj (f := fun x => missingTableDiff l1 l2 x) hinj
        (sortedSetDiff (m1.map Prod.fst) (m2.map Prod.fst)) t
      exact hcnt.trans (count_sortedSetDiff ht1 ht2)
    have hB : ((sortedSetDiff (m2.map Prod.fst) (m1.map Prod.fst)).map
        (fun x => extraTableDiff l1 l2 x)).count (missingTableDiff l1 l2 t) = 0 := by
      rw [List.count_eq_zero]
      intro hm
      rcases List.mem_map.mp hm with ⟨n, _, hne⟩
      have := congrArg Difference.diff_type hne
      simp only [extraTableDiff, missingTableDiff] at this
      exact absurd this (by decide)
    have hC : ((sortedSetInter (m1.map Prod.fst) (m2.map Prod.fst)).flatMap (fun x =>
        compareColumns x (tableCols m1 x) (tableCols m2 x) l1 l2)).count
          (missingTableDiff l1 l2 t) = 0 := by
      rw [List.count_eq_zero]
      intro hm
      rcases List.mem_flatMap.mp hm with ⟨x, _, hdm⟩
      have hk := compareColumns_kind hdm
      have hdt : (missingTableDiff l1 l2 t).diff_type = "MISSING_TABLE" := rfl
      rw [hdt] at hk
      rcases hk with hk | hk | hk <;> exact absurd hk (by decide)
    rw [hA, hB, hC]
  · rw [compareTables_eq, List.countP_append, List.countP_append]
    have hA : ((sortedSetDiff (m1.map Prod.fst) (m2.map Prod.fst)).map
        (fun x => missingTableDiff l1 l2 x)).countP
        (fun d => d.diff_type == "MISSING_TABLE" && d.table_name == t) = 1 := by
      rw [countP_map_key _ _ t (fun x => by simp [missingTableDiff])]
      exact count_sortedSetDiff ht1 ht2
    have hB : ((sortedSetDiff (m2.map Prod.fst) (m1.map Prod.fst)).map
        (fun x => extraTableDiff l1 l2 x)).countP
        (fun d => d.diff_type == "MISSING_TABLE" && d.table_name == t) = 0 := by
      rw [List.countP_eq_zero]
      intro d hd
      rcases List.mem_map.mp hd with ⟨n, _, hne⟩
      rw [← hne]
      simp [extraTableDiff, hfE]
    have hC : ((sortedSetInter (m1.map Prod.fst) (m2.map Prod.fst)).flatMap (fun x =>
        compareColumns x (tableCols m1 x) (tableCols m2 x) l1 l2)).countP
        (fun d => d.diff_type == "MISSING_TABLE" && d.table_name == t) = 0 := by
      rw [List.countP_eq_zero]
      intro d hd hp
      rcases List.mem_flatMap.mp hd with ⟨x, _, hdm⟩
      have hk := compareColumns_kind hdm
      have hdt := beq_iff_eq.mp (Bool.and_eq_true _ _ ▸ hp).1
      rcases hk with hk | hk | hk <;> rw [hk] at hdt <;> exact absurd hdt (by decide)
    rw [hA, hB, hC]

theorem compareTables_count_extra_table {l1 l2 t : String} {m1 m2 : Snapshot}
    (ht2 : t ∈ m2.map Prod.fst) (ht1 : t ∉ m1.map Prod.fst) :
    (compareTables l1 m1 l2 m2).count (extraTableDiff l1 l2 t) = 1 ∧
    (compareTables l1 m1 l2 m2).countP
      (fun d => d.diff_type == "EXTRA_TABLE" && d.table_name == t) = 1 := by
  have hfM : (("MISSING_TABLE" : String) == "EXTRA_TABLE") = false := by decide
  constructor
  · rw [compareTables_eq, List.count_append, List.count_append]
    have hA : ((sortedSetDiff (m1.map Prod.fst) (m2.map Prod.fst)).map
        (fun x => missingTableDiff l1 l2 x)).count (extraTableDiff l1 l2 t) = 0 := by
      rw [List.count_eq_zero]
      intro hm
      rcases List.mem_map.mp hm with ⟨n, _, hne⟩
      have := congrArg Difference.diff_type hne
      simp only [extraTableDiff, missingTableDiff] at this
      exact absurd this (by decide)
    have hB : ((sortedSetDiff (m2.map Prod.fst) (m1.map Prod.fst)).map
        (fun x => extraTableDiff l1 l2 x)).count (extraTableDiff l1 l2 t) = 1 := by
      have hinj : ∀ a b : String,
          (fun x => extraTableDiff l1 l2 x) a =
          (fun x => extraTableDiff l1 l2 x) b → a = b := by
        intro a b hab
        have h2 := congrArg Difference.table_name hab
        simpa [extraTableDiff] using h2
      have hcnt := count_map_inj (f := fun x => extraTableDiff l1 l2 x) hinj
        (sortedSetDiff (m2.map Prod.fst) (m1.map Prod.fst)) t
      exact hcnt.trans (count_sortedSetDiff ht2 ht1)
    have hC : ((sortedSetInter (m1.map Prod.fst) (m2.map Prod.fst)).flatMap (fun x =>
        compareColumns x (tableCols m1 x) (tableCols m2 x) l1 l2)).count
          (extraTableDiff l1 l2 t) = 0 := by
      rw [List.count_eq_zero]
      intro hm
      rcases List.mem_flatMap.mp hm with ⟨x, _, hdm⟩
      have hk := compareColumns_kind hdm
      have hdt : (extraTableDiff l1 l2 t).diff_type = "EXTRA_TABLE" := rfl
      rw [hdt] at hk
      rcases hk with hk | hk | hk <;> exact absurd hk (by decide)
    rw [hA, hB, hC]
  · rw [compareTables_eq, List.countP_append, List.countP_append]
    have hA : ((sortedSetDiff (m1.map Prod.fst) (m2.map Prod.fst)).map
        (fun x => missingTableDiff l1 l2 x)).countP
        (fun d => d.diff_type == "EXTRA_TABLE" && d.table_name == t) = 0 := by
      rw [List.countP_eq_zero]
      intro d hd
      rcases List.mem_map.mp hd with ⟨n, _, hne⟩
      rw [← hne]
      simp [missingTableDiff, hfM]
    have hB : ((sortedSetDiff (m2.map Prod.fst) (m1.map Prod.fst)).map
        (fun x => extraTableDiff l1 l2 x)).countP
        (fun d => d.diff_type == "EXTRA_TABLE" && d.table_name == t) = 1 := by
      rw [countP_map_key _ _ t (fun x => by simp [extraTableDiff])]
      exact count_sortedSetDiff ht2 ht1
    have hC : ((sortedSetInter (m1.map Prod.fst) (m2.map Prod.fst)).flatMap (fun x =>
        compareColumns x (tableCols m1 x) (tableCols m2 x) l1 l2)).countP
        (fun d => d.diff_type == "EXTRA_TABLE" && d.table_name == t) = 0 := by
      rw [List.countP_eq_zero]
      intro d hd hp
      rcases List.mem_flatMap.mp hd with ⟨x, _, hdm⟩
      have hk := compareColumns_kind hdm
      have hdt := beq_iff_eq.mp (Bool.and_eq_true _ _ ▸ hp).1
      rcases hk with hk | hk | hk <;> rw [hk] at hdt <;> exact absurd hdt (by decide)
    rw [hA, hB, hC]

/-- Counting a predicate that pins the table name to a table common to both
snapshots: only that table's column-comparison segment contributes. -/
theorem countP_compareTables_common {l1 l2 : String} {m1 m2 : Snapshot}
    {t : String} {cols1 cols2 : List Column} (p : Difference → Bool)
    (hk1 : (m1.map Prod.fst).Nodup) (hk2 : (m2.map Prod.fst).Nodup)
    (ht1 : (t, cols1) ∈ m1) (ht2 : (t, cols2) ∈ m2)
    (hpt : ∀ d, p d = true → d.table_name = t) :
    (compareTables l1 m1 l2 m2).countP p =
      (compareColumns t cols1 cols2 l1 l2).countP p := by
  have htm1 : t ∈ m1.map Prod.fst := List.mem_map_of_mem Prod.fst ht1
  have htm2 : t ∈ m2.map Prod.fst := List.mem_map_of_mem Prod.fst ht2
  rw [compareTables_eq, List.countP_append, List.countP_append]
  have hA : ((sortedSetDiff (m1.map Prod.fst) (m2.map Prod.fst)).map
      (fun x => missingTableDiff l1 l2 x)).countP p = 0 := by
    rw [List.countP_eq_zero]
    intro d hd hp
    rcases List.mem_map.mp hd with ⟨n, hn, hne⟩
    have hdt : d.table_name = n := by
      rw [← hne]
      rfl
    have hnt : n = t := hdt.symm.trans (hpt d hp)
    exact (mem_sortedSetDiff.mp hn).2 (hnt ▸ htm2)
  have hB : ((sortedSetDiff (m2.map Prod.fst) (m1.map Prod.fst)).map
      (fun x => extraTableDiff l1 l2 x)).countP p = 0 := by
    rw [List.countP_eq_zero]
    intro d hd hp
    rcases List.mem_map.mp hd with ⟨n, hn, hne⟩
    have hdt : d.table_name = n := by
      rw [← hne]
      rfl
    have hnt : n = t := hdt.symm.trans (hpt d hp)
    exact (mem_sortedSetDiff.mp hn).2 (hnt ▸ htm1)
  have hC : ((sortedSetInter (m1.map Prod.fst) (m2.map Prod.fst)).flatMap (fun x =>
      compareColumns x (tableCols m1 x) (tableCols m2 x) l1 l2)).countP p =
      (compareColumns t cols1 cols2 l1 l2).countP p := by
    rw [countP_flatMap_single _ _ (sortedSetInter_nodup _ _)
      (mem_sortedSetInter.mpr ⟨htm1, htm2⟩) ?zeros]
    case zeros =>
      intro x _ hxt
      rw [List.countP_eq_zero]
      intro d hd hp
      exact hxt ((compareColumns_table hd).symm.trans (hpt d hp))
    rw [tableCols_of_mem hk1 ht1, tableCols_of_mem hk2 ht2]
  rw [hA, hB, hC]
  omega

/-! ### Claim C1 -/

/-- C1: for every compared pair, exactly one MISSING_TABLE Difference (with
empty column_name) per table only in db1 and exactly one EXTRA_TABLE per
table only in db2; for tables in both, exactly one MISSING_COLUMN per
column only in db1 and exactly one EXTRA_COLUMN per column only in db2
(each difference being the record whose detail carries that side's
data_type and is_nullable), and no Difference at all for a column identical
on both sides. -/
theorem claim_c1 (l1 l2 : String) (m1 m2 : Snapshot)
    (hk1 : (m1.map Prod.fst).Nodup) (hk2 : (m2.map Prod.fst).Nodup)
    (hcn1 : ∀ p ∈ m1, (p.2.map Column.column_name).Nodup)
    (hcn2 : ∀ p ∈ m2, (p.2.map Column.column_name).Nodup) :
    (∀ t, t ∈ m1.map Prod.fst → t ∉ m2.map Prod.fst →
      (compareTables l1 m1 l2 m2).count (missingTableDiff l1 l2 t) = 1 ∧
      (compareTables l1 m1 l2 m2).countP
        (fun d => d.diff_type == "MISSING_TABLE" && d.table_name == t) = 1) ∧
    (∀ t, t ∈ m2.map Prod.fst → t ∉ m1.map Prod.fst →
      (compareTables l1 m1 l2 m2).count (extraTableDiff l1 l2 t) = 1 ∧
      (compareTables l1 m1 l2 m2).countP
        (fun d => d.diff_type == "EXTRA_TABLE" && d.table_name == t) = 1) ∧
    (∀ t cols1 cols2 c col, (t, cols1) ∈ m1 → (t, cols2) ∈ m2 →
      col ∈ cols1 → col.column_name = c → c ∉ cols2.map Column.column_name →
      (compareTables l1 m1 l2 m2).count (missingColDiff l1 l2 t c col) = 1 ∧
      (compareTables l1 m1 l2 m2).countP
        (fun d => d.diff_type == "MISSING_COLUMN" && d.table_name == t &&
          d.column_name == c) = 1) ∧
    (∀ t cols1 cols2 c col, (t, cols1) ∈ m1 → (t, cols2) ∈ m2 →
      col ∈ cols2 → col.column_name = c → c ∉ cols1.map Column.column_name →
      (compareTables l1 m1 l2 m2).count (extraColDiff l1 l2 t c col) = 1 ∧
      (compareTables l1 m1 l2 m2).countP
        (fun d => d.diff_type == "EXTRA_COLUMN" && d.table_name == t &&
          d.column_name == c) = 1) ∧
    (∀ t cols1 cols2 c col, (t, cols1) ∈ m1 → (t, cols2) ∈ m2 →
      col ∈ cols1 → col ∈ cols2 → col.column_name = c →
      (compareTables l1 m1 l2 m2).countP
        (fun d => d.table_name == t && d.column_name == c) = 0) := by
  refine ⟨?_, ?_, ?_, ?_, ?_⟩
  · intro t ht1 ht2
    exact compareTables_count_missing_table ht1 ht2
  · intro t ht2 ht1
    exact compareTables_count_extra_table ht2 ht1
  · intro t cols1 cols2 c col ht1 ht2 hmem hname hc2
    have hn1 : (cols1.map Column.column_name).Nodup := hcn1 (t, cols1) ht1
    constructor
    · rw [List.count_eq_countP,
        countP_compareTables_common (p := fun x => x == missingColDiff l1 l2 t c col)
          hk1 hk2 ht1 ht2 (fun d hb => by
            rw [beq_iff_eq.mp hb]
            rfl),
        ← List.count_eq_countP]
      exact (compareColumns_count_missing hn1 hmem hname hc2).1
    · rw [countP_compareTables_common
          (p := fun d => d.diff_type == "MISSING_COLUMN" && d.table_name == t &&
            d.column_name == c)
          hk1 hk2 ht1 ht2 (fun d hp => by
            have hp2 := (Bool.and_eq_true _ _ ▸ hp).1
            exact beq_iff_eq.mp (Bool.and_eq_true _ _ ▸ hp2).2)]
      exact (compareColumns_count_missing hn1 hmem hname hc2).2
  · intro t cols1 cols2 c col ht1 ht2 hmem hname hc1
    have hn2 : (cols2.map Column.column_name).Nodup := hcn2 (t, cols2) ht2
    constructor
    · rw [List.count_eq_countP,
        countP_compareTables_common (p := fun x => x == extraColDiff l1 l2 t c col)
          hk1 hk2 ht1 ht2 (fun d hb => by
            rw [beq_iff_eq.mp hb]
            rfl),
        ← List.count_eq_countP]
      exact (compareColumns_count_extra hn2 hmem hname hc1).1
    · rw [countP_compareTables_common
          (p := fun d => d.diff_type == "EXTRA_COLUMN" && d.table_name == t &&
            d.column_name == c)
          hk1 hk2 ht1 ht2 (fun d hp => by
            have hp2 := (Bool.and_eq_true _ _ ▸ hp).1
            exact beq_iff_eq.mp (Bool.and_eq_true _ _ ▸ hp2).2)]
      exact (compareColumns_count_extra hn2 hmem hname hc1).2
  · intro t cols1 cols2 c col ht1 ht2 h1 h2 hname
    have hn1 : (cols1.map Column.column_name).Nodup := hcn1 (t, cols1) ht1
    have hn2 : (cols2.map Column.column_name).Nodup := hcn2 (t, cols2) ht2
    rw [countP_compareTables_common
        (p := fun d => d.table_name == t && d.column_name == c)
        hk1 hk2 ht1 ht2 (fun d hp => beq_iff_eq.mp (Bool.and_eq_true _ _ ▸ hp).1)]
    exact compareColumns_count_identical hn1 hn2 h1 h2 hname

/-- Snapshots used by the C1 witness. -/
def wSnap1 : Snapshot :=
  [("users", [⟨"id", "integer", "NO"⟩, ⟨"email", "text", "YES"⟩]),
   ("orders", [⟨"id", "integer", "NO"⟩])]

def wSnap2 : Snapshot := [("users", [⟨"id", "integer", "NO"⟩])]

theorem claim_c1_witness :
    (wSnap1.map Prod.fst).Nodup ∧
    (compareTables "db1" wSnap1 "db2" wSnap2).count
      (missingTableDiff "db1" "db2" "orders") = 1 ∧
    (compareTables "db1" wSnap1 "db2" wSnap2).count
      (missingColDiff "db1" "db2" "users" "email" ⟨"email", "text", "YES"⟩) = 1 ∧
    (compareTables "db1" wSnap1 "db2" wSnap2).countP
      (fun d => d.table_name == "users" && d.column_name == "id") = 0 :=
  ⟨by decide,
   ((claim_c1 "db1" "db2" wSnap1 wSnap2 (by decide) (by decide) (by decide)
       (by decide)).1 "orders" (by decide) (by decide)).1,
   ((claim_c1 "db1" "db2" wSnap1 wSnap2 (by decide) (by decide) (by decide)
       (by decide)).2.2.1 "users"
       [⟨"id", "integer", "NO"⟩, ⟨"email", "text", "YES"⟩] [⟨"id", "integer", "NO"⟩]
       "email" ⟨"email", "text", "YES"⟩ (by decide) (by decide) (by decide)
       (by decide) (by decide)).1,
   (claim_c1 "db1" "db2" wSnap1 wSnap2 (by decide) (by decide) (by decide)
       (by decide)).2.2.2.2 "users"
       [⟨"id", "integer", "NO"⟩, ⟨"email", "text", "YES"⟩] [⟨"id", "integer", "NO"⟩]
       "id" ⟨"id", "integer", "NO"⟩ (by decide) (by decide) (by decide)
       (by decide) (by decide)⟩

/-! ### Claim C3: mismatch detail format -/

theorem intercalate_single (s a : String) : String.intercalate s [a] = a := by
  simp [String.intercalate, String.intercalate.go]

theorem intercalate_pair (s a b : String) :
    String.intercalate s [a, b] = a ++ s ++ b := by
  simp [String.intercalate, String.intercalate.go]

theorem mismatchDetail_spec (l1 l2 : String) (c1 c2 : Column)
    (hdiff : c1.data_type ≠ c2.data_type ∨ c1.is_nullable ≠ c2.is_nullable) :
    mismatchDetail l1 l2 c1 c2 =
      (if c1.data_type ≠ c2.data_type ∧ c1.is_nullable ≠ c2.is_nullable then
        "data_type: " ++ l1 ++ "=" ++ c1.data_type ++ " vs " ++ l2 ++ "=" ++
          c2.data_type ++ "; " ++
          ("nullable: " ++ l1 ++ "=" ++ c1.is_nullable ++ " vs " ++ l2 ++ "=" ++
            c2.is_nullable)
      else if c1.data_type ≠ c2.data_type then
        "data_type: " ++ l1 ++ "=" ++ c1.data_type ++ " vs " ++ l2 ++ "=" ++
          c2.data_type
      else
        "nullable: " ++ l1 ++ "=" ++ c1.is_nullable ++ " vs " ++ l2 ++ "=" ++
          c2.is_nullable) := by
  have hgo : mismatchDetail l1 l2 c1 c2 = String.intercalate "; "
      ((if c1.data_type ≠ c2.data_type then
          ["data_type: " ++ l1 ++ "=" ++ c1.data_type ++ " vs " ++ l2 ++ "=" ++
            c2.data_type ++ ""]
        else []) ++
       (if c1.is_nullable ≠ c2.is_nullable then
          ["nullable: " ++ l1 ++ "=" ++ c1.is_nullable ++ " vs " ++ l2 ++ "=" ++
            c2.is_nullable ++ ""]
        else [])) := rfl
  rw [String.append_empty, String.append_empty] at hgo
  rw [hgo]
  by_cases htd : c1.data_type ≠ c2.data_type <;>
    by_cases hnd : c1.is_nullable ≠ c2.is_nullable
  · rw [if_pos htd, if_pos hnd, if_pos ⟨htd, hnd⟩, List.singleton_append,
      intercalate_pair]
  · rw [if_pos htd, if_neg hnd, if_neg (fun hc => hnd hc.2), if_pos htd,
      List.append_nil, intercalate_single]
  · rw [if_neg htd, if_pos hnd, if_neg (fun hc => htd hc.1), if_neg htd,
      List.nil_append, intercalate_single]
  · rcases hdiff with hd | hd
    · exact absurd hd htd
    · exact absurd hd hnd

/-- C3: for a column present in both snapshots of a compared pair whose
data_type and/or is_nullable differ, the comparison emits exactly one
COLUMN_MISMATCH Difference for that table and column, and that Difference
is the record whose detail is the "; "-separated concatenation of one
clause per differing field (`data_type: db1=X vs db2=Y`,
`nullable: db1=A vs db2=B`), omitting the clause of a matching field. -/
theorem claim_c3 (l1 l2 : String) (m1 m2 : Snapshot)
    (hk1 : (m1.map Prod.fst).Nodup) (hk2 : (m2.map Prod.fst).Nodup)
    (hcn1 : ∀ p ∈ m1, (p.2.map Column.column_name).Nodup)
    (hcn2 : ∀ p ∈ m2, (p.2.map Column.column_name).Nodup) :
    ∀ t cols1 cols2 c col1 col2, (t, cols1) ∈ m1 → (t, cols2) ∈ m2 →
      col1 ∈ cols1 → col2 ∈ cols2 →
      col1.column_name = c → col2.column_name = c →
      (col1.data_type ≠ col2.data_type ∨ col1.is_nullable ≠ col2.is_nullable) →
      (compareTables l1 m1 l2 m2).countP
        (fun d => d.diff_type == "COLUMN_MISMATCH" && d.table_name == t &&
          d.column_name == c) = 1 ∧
      (compareTables l1 m1 l2 m2).count
        ⟨"COLUMN_MISMATCH", t, c,
         (if col1.data_type ≠ col2.data_type ∧ col1.is_nullable ≠ col2.is_nullable then
            "data_type: " ++ l1 ++ "=" ++ col1.data_type ++ " vs " ++ l2 ++ "=" ++
              col2.data_type ++ "; " ++
              ("nullable: " ++ l1 ++ "=" ++ col1.is_nullable ++ " vs " ++ l2 ++ "=" ++
                col2.is_nullable)
          else if col1.data_type ≠ col2.data_type then
            "data_type: " ++ l1 ++ "=" ++ col1.data_type ++ " vs " ++ l2 ++ "=" ++
              col2.data_type
          else
            "nullable: " ++ l1 ++ "=" ++ col1.is_nullable ++ " vs " ++ l2 ++ "=" ++
              col2.is_nullable),
         l1, l2⟩ = 1 := by
  intro t cols1 cols2 c col1 col2 ht1 ht2 h1 h2 hname1 hname2 hdiff
  have hn1 : (cols1.map Column.column_name).Nodup := hcn1 (t, cols1) ht1
  have hn2 : (cols2.map Column.column_name).Nodup := hcn2 (t, cols2) ht2
  have hmm := @compareColumns_count_mismatch t cols1 cols2 l1 l2 c col1 col2
    hn1 hn2 h1 h2 hname1 hname2 hdiff
  have hrec : mismatchDiff l1 l2 t c col1 col2 =
      (⟨"COLUMN_MISMATCH", t, c,
        (if col1.data_type ≠ col2.data_type ∧ col1.is_nullable ≠ col2.is_nullable then
          "data_type: " ++ l1 ++ "=" ++ col1.data_type ++ " vs " ++ l2 ++ "=" ++
            col2.data_type ++ "; " ++
            ("nullable: " ++ l1 ++ "=" ++ col1.is_nullable ++ " vs " ++ l2 ++ "=" ++
              col2.is_nullable)
        else if col1.data_type ≠ col2.data_type then
          "data_type: " ++ l1 ++ "=" ++ col1.data_type ++ " vs " ++ l2 ++ "=" ++
            col2.data_type
        else
          "nullable: " ++ l1 ++ "=" ++ col1.is_nullable ++ " vs " ++ l2 ++ "=" ++
            col2.is_nullable),
        l1, l2⟩ : Difference) := by
    unfold mismatchDiff
    rw [mismatchDetail_spec l1 l2 col1 col2 hdiff]
  constructor
  · rw [countP_compareTables_common
        (p := fun d => d.diff_type == "COLUMN_MISMATCH" && d.table_name == t &&
          d.column_name == c)
        hk1 hk2 ht1 ht2 (fun d hp => by
          have hp2 := (Bool.and_eq_true _ _ ▸ hp).1
          exact beq_iff_eq.mp (Bool.and_eq_true _ _ ▸ hp2).2)]
    exact hmm.2
  · rw [← hrec, List.count_eq_countP,
      countP_compareTables_common (p := fun x => x == mismatchDiff l1 l2 t c col1 col2)
        hk1 hk2 ht1 ht2 (fun d hb => by
          rw [beq_iff_eq.mp hb]
          rfl),
      ← List.count_eq_countP]
    exact hmm.1

/-- Snapshots used by the C3 witness (scenario C of the spec). -/
def wSnap3 : Snapshot := [("users", [⟨"id", "int", "NO"⟩])]

def wSnap4 : Snapshot := [("users", [⟨"id", "bigint", "YES"⟩])]

theorem claim_c3_witness :
    ("users", [(⟨"id", "int", "NO"⟩ : Column)]) ∈ wSnap3 ∧
    (compareTables "db1" wSnap3 "db2" wSnap4).countP
      (fun d => d.diff_type == "COLUMN_MISMATCH" && d.table_name == "users" &&
        d.column_name == "id") = 1 :=
  ⟨by decide,
   ((claim_c3 "db1" "db2" wSnap3 wSnap4 (by decide) (by decide) (by decide) (by decide))
     "users" [⟨"id", "int", "NO"⟩] [⟨"id", "bigint", "YES"⟩] "id"
     ⟨"id", "int", "NO"⟩ ⟨"id", "bigint", "YES"⟩
     (by decide) (by decide) (by decide) (by decide) (by decide) (by decide)
     (by decide)).1⟩

/-! ### Claim C8: symmetry of a single data_type mismatch -/

theorem flatMap_single {α β : Type} {l : List α} {t : α} (f : α → List β)
    (hn : l.Nodup) (ht : t ∈ l) (h0 : ∀ x ∈ l, x ≠ t → f x = []) :
    l.flatMap f = f t := by
  induction l with
  | nil => cases ht
  | cons x xs ih =>
    rw [List.flatMap_cons]
    rcases List.mem_cons.mp ht with hx | hx
    · subst hx
      have hrest : xs.flatMap f = [] := by
        rw [List.flatMap_eq_nil_iff]
        intro y hy
        exact h0 y (List.mem_cons_of_mem _ hy)
          (fun hyx => (List.nodup_cons.mp hn).1 (hyx ▸ hy))
      rw [hrest, List.append_nil]
    · have hxt : x ≠ t := fun hx2 => (List.nodup_cons.mp hn).1 (hx2 ▸ hx)
      rw [h0 x (by simp) hxt, List.nil_append]
      exact ih (List.nodup_cons.mp hn).2 hx
        (fun y hy hyt => h0 y (List.mem_cons_of_mem x hy) hyt)

theorem updateCols_names (cols : List Column) (c y : String) :
    (updateCols cols c y).map Column.column_name = cols.map Column.column_name := by
  unfold updateCols
  rw [List.map_map]
  apply List.map_congr_left
  intro col0 _
  by_cases h : col0.column_name = c <;> simp [Function.comp, h]

theorem updateSnap_keys (m : Snapshot) (t c y : String) :
    (updateSnap m t c y).map Prod.fst = m.map Prod.fst := by
  unfold updateSnap
  rw [List.map_map]
  apply List.map_congr_left
  intro p _
  by_cases h : p.1 = t <;> simp [Function.comp, h]

theorem filter_updateCols_ne (cols : List Column) (c y n : String) (hnc : n ≠ c) :
    (updateCols cols c y).filter (fun q => q.column_name == n) =
      cols.filter (fun q => q.column_name == n) := by
  induction cols with
  | nil => rfl
  | cons col0 cols ih =>
    show ((if col0.column_name = c then { col0 with data_type := y } else col0) ::
      updateCols cols c y).filter (fun q => q.column_name == n) = _
    rw [List.filter_cons, List.filter_cons]
    by_cases h0 : col0.column_name = c
    · rw [if_pos h0]
      have hh : (({ col0 with data_type := y } : Column).column_name == n) = false := by
        rw [beq_eq_false_iff_ne]
        show col0.column_name ≠ n
        rw [h0]
        exact fun hcn => hnc hcn.symm
      rw [hh]
      simpa using ih
    · rw [if_neg h0]
      by_cases hn0 : (col0.column_name == n) = true
      · rw [hn0]
        simp only [if_pos]
        rw [ih]
      · have : (col0.column_name == n) = false := by
          rw [Bool.eq_false_iff]
          exact hn0
        rw [this]
        simpa using ih

theorem colOf_updateCols_ne (cols : List Column) (c y n : String) (hnc : n ≠ c) :
    colOf (updateCols cols c y) n = colOf cols n := by
  unfold colOf
  rw [filter_updateCols_ne cols c y n hnc]

theorem colOf_updateCols_self {cols : List Column} {c : String} {col : Column}
    (y : String) (hnod : (cols.map Column.column_name).Nodup)
    (hcol : col ∈ cols) (hname : col.column_name = c) :
    colOf (updateCols cols c y) c = ⟨col.column_name, y, col.is_nullable⟩ := by
  have hmem : ({ col with data_type := y } : Column) ∈ updateCols cols c y := by
    have hm := List.mem_map_of_mem
      (fun col0 => if col0.column_name = c then { col0 with data_type := y } else col0)
      hcol
    have hm2 : (if col.column_name = c then ({ col with data_type := y } : Column)
        else col) ∈ updateCols cols c y := hm
    rw [if_pos hname] at hm2
    exact hm2
  have hnod2 : ((updateCols cols c y).map Column.column_name).Nodup := by
    rw [updateCols_names]
    exact hnod
  have h := colOf_of_mem hnod2 hmem
  have hcn : ({ col with data_type := y } : Column).column_name = c := hname
  rw [hcn] at h
  rw [hname]
  exact h

theorem compareColumns_update {l1 l2 t c y : String} {cols : List Column}
    {col : Column} (hnod : (cols.map Column.column_name).Nodup)
    (hcol : col ∈ cols) (hname : col.column_name = c)
    (hy : y ≠ col.data_type) :
    compareColumns t cols (updateCols cols c y) l1 l2 =
      [mismatchDiff l1 l2 t c col ⟨col.column_name, y, col.is_nullable⟩] ∧
    compareColumns t (updateCols cols c y) cols l2 l1 =
      [mismatchDiff l2 l1 t c ⟨col.column_name, y, col.is_nullable⟩ col] := by
  have hcc : c ∈ cols.map Column.column_name := by
    rw [← hname]
    exact List.mem_map_of_mem Column.column_name hcol
  have hcolc : colOf cols c = col := by
    rw [← hname]
    exact colOf_of_mem hnod hcol
  have hcolc2 : colOf (updateCols cols c y) c = ⟨col.column_name, y, col.is_nullable⟩ :=
    colOf_updateCols_self y hnod hcol hname
  constructor
  · rw [compareColumns_eq, updateCols_names]
    rw [sortedSetDiff_eq_nil (fun x hx => hx)]
    rw [flatMap_single _ (sortedSetInter_nodup _ _)
      (mem_sortedSetInter.mpr ⟨hcc, hcc⟩) ?zeros]
    case zeros =>
      intro n _ hnc
      rw [colOf_updateCols_ne cols c y n hnc, if_neg]
      rintro (h | h) <;> exact h rfl
    rw [hcolc, hcolc2, if_pos (Or.inl (by simpa using Ne.symm hy))]
    simp
  · rw [compareColumns_eq, updateCols_names]
    rw [sortedSetDiff_eq_nil (fun x hx => hx)]
    rw [flatMap_single _ (sortedSetInter_nodup _ _)
      (mem_sortedSetInter.mpr ⟨hcc, hcc⟩) ?zeros]
    case zeros =>
      intro n _ hnc
      rw [colOf_updateCols_ne cols c y n hnc, if_neg]
      rintro (h | h) <;> exact h rfl
    rw [hcolc, hcolc2, if_pos (Or.inl (by simpa using hy))]
    simp

theorem tableCols_updateSnap_self {m : Snapshot} {t : String} {cols : List Column}
    (c y : String) (hk : (m.map Prod.fst).Nodup) (ht : (t, cols) ∈ m) :
    tableCols (updateSnap m t c y) t = updateCols cols c y := by
  have hk2 : ((updateSnap m t c y).map Prod.fst).Nodup := by
    rw [updateSnap_keys]
    exact hk
  have hmem : (t, updateCols cols c y) ∈ updateSnap m t c y := by
    have hm := List.mem_map_of_mem
      (fun p => if p.1 = t then (p.1, updateCols p.2 c y) else p) ht
    have hm2 : (if (t, cols).1 = t then ((t, cols).1, updateCols (t, cols).2 c y)
        else (t, cols)) ∈ updateSnap m t c y := hm
    rw [if_pos rfl] at hm2
    exact hm2
  exact dictGet_of_mem hk2 hmem

theorem tableCols_updateSnap_ne {m : Snapshot} {t x : String}
    (c y : String) (hk : (m.map Prod.fst).Nodup) (hx : x ∈ m.map Prod.fst)
    (hxt : x ≠ t) : tableCols (updateSnap m t c y) x = tableCols m x := by
  have hk2 : ((updateSnap m t c y).map Prod.fst).Nodup := by
    rw [updateSnap_keys]
    exact hk
  rcases List.mem_map.mp hx with ⟨p, hp, hpx⟩
  have hpmem : (x, p.2) ∈ m := by
    rw [← hpx]
    exact hp
  have hmem : (x, p.2) ∈ updateSnap m t c y := by
    have hm := List.mem_map_of_mem
      (fun q => if q.1 = t then (q.1, updateCols q.2 c y) else q) hpmem
    have hm2 : (if (x, p.2).1 = t then ((x, p.2).1, updateCols (x, p.2).2 c y)
        else (x, p.2)) ∈ updateSnap m t c y := hm
    rw [if_neg hxt] at hm2
    exact hm2
  rw [tableCols_of_mem hk2 hmem, tableCols_of_mem hk hpmem]

/-- C8: for a pair of snapshots whose only discrepancy is one common
column's data_type, comparison in either order yields exactly one
COLUMN_MISMATCH for that column, with the detail's sides mirrored when the
order is swapped. -/
theorem claim_c8 (l1 l2 : String) (m1 : Snapshot) (t c y : String)
    (cols : List Column) (col : Column)
    (hk1 : (m1.map Prod.fst).Nodup)
    (hcn1 : ∀ p ∈ m1, (p.2.map Column.column_name).Nodup)
    (ht : (t, cols) ∈ m1) (hcol : col ∈ cols) (hname : col.column_name = c)
    (hy : y ≠ col.data_type) :
    compareTables l1 m1 l2 (updateSnap m1 t c y) =
      [⟨"COLUMN_MISMATCH", t, c,
        "data_type: " ++ l1 ++ "=" ++ col.data_type ++ " vs " ++ l2 ++ "=" ++ y,
        l1, l2⟩] ∧
    compareTables l2 (updateSnap m1 t c y) l1 m1 =
      [⟨"COLUMN_MISMATCH", t, c,
        "data_type: " ++ l2 ++ "=" ++ y ++ " vs " ++ l1 ++ "=" ++ col.data_type,
        l2, l1⟩] := by
  have hnod : (cols.map Column.column_name).Nodup := hcn1 (t, cols) ht
  have htm : t ∈ m1.map Prod.fst := List.mem_map_of_mem Prod.fst ht
  have hu := @compareColumns_update l1 l2 t c y cols col
    hnod hcol hname hy
  have hrec1 : mismatchDiff l1 l2 t c col ⟨col.column_name, y, col.is_nullable⟩ =
      (⟨"COLUMN_MISMATCH", t, c,
        "data_type: " ++ l1 ++ "=" ++ col.data_type ++ " vs " ++ l2 ++ "=" ++ y,
        l1, l2⟩ : Difference) := by
    unfold mismatchDiff
    have hdet : mismatchDetail l1 l2 col ⟨col.column_name, y, col.is_nullable⟩ =
        String.intercalate "; "
          ((if col.data_type ≠ y then
              ["data_type: " ++ l1 ++ "=" ++ col.data_type ++ " vs " ++ l2 ++ "=" ++
                y ++ ""]
            else []) ++
           (if col.is_nullable ≠ col.is_nullable then
              ["nullable: " ++ l1 ++ "=" ++ col.is_nullable ++ " vs " ++ l2 ++ "=" ++
                col.is_nullable ++ ""]
            else [])) := rfl
    rw [hdet, String.append_empty, if_pos (Ne.symm hy), if_neg (fun h => h rfl),
      List.append_nil, intercalate_single]
  have hrec2 : mismatchDiff l2 l1 t c ⟨col.column_name, y, col.is_nullable⟩ col =
      (⟨"COLUMN_MISMATCH", t, c,
        "data_type: " ++ l2 ++ "=" ++ y ++ " vs " ++ l1 ++ "=" ++ col.data_type,
        l2, l1⟩ : Difference) := by
    unfold mismatchDiff
    have hdet : mismatchDetail l2 l1 ⟨col.column_name, y, col.is_nullable⟩ col =
        String.intercalate "; "
          ((if y ≠ col.data_type then
              ["data_type: " ++ l2 ++ "=" ++ y ++ " vs " ++ l1 ++ "=" ++
                col.data_type ++ ""]
            else []) ++
           (if col.is_nullable ≠ col.is_nullable then
              ["nullable: " ++ l2 ++ "=" ++ col.is_nullable ++ " vs " ++ l1 ++ "=" ++
                col.is_nullable ++ ""]
            else [])) := rfl
    rw [hdet, String.append_empty, if_pos hy, if_neg (fun h => h rfl),
      List.append_nil, intercalate_single]
  constructor
  · rw [compareTables_eq, updateSnap_keys]
    rw [sortedSetDiff_eq_nil (fun x hx => hx)]
    rw [flatMap_single _ (sortedSetInter_nodup _ _)
      (mem_sortedSetInter.mpr ⟨htm, htm⟩) ?zeros]
    case zeros =>
      intro x hx hxt
      have hxm : x ∈ m1.map Prod.fst := (mem_sortedSetInter.mp hx).1
      rw [tableCols_updateSnap_ne c y hk1 hxm hxt]
      exact compareColumns_self x (tableCols m1 x) l1 l2
    rw [tableCols_of_mem hk1 ht, tableCols_updateSnap_self c y hk1 ht, hu.1, hrec1]
    simp
  · rw [compareTables_eq, updateSnap_keys]
    rw [sortedSetDiff_eq_nil (fun x hx => hx)]
    rw [flatMap_single _ (sortedSetInter_nodup _ _)
      (mem_sortedSetInter.mpr ⟨htm, htm⟩) ?zeros]
    case zeros =>
      intro x hx hxt
      have hxm : x ∈ m1.map Prod.fst := (mem_sortedSetInter.mp hx).1
      rw [tableCols_updateSnap_ne c y hk1 hxm hxt]
      exact compareColumns_self x (tableCols m1 x) l2 l1
    rw [tableCols_of_mem hk1 ht, tableCols_updateSnap_self c y hk1 ht, hu.2, hrec2]
    simp

theorem claim_c8_witness :
    ("id", "int", "NO") = ("id", "int", "NO") ∧
    compareTables "db1" wSnap3 "db2" (updateSnap wSnap3 "users" "id" "bigint") =
      [⟨"COLUMN_MISMATCH", "users", "id",
        "data_type: " ++ "db1" ++ "=" ++ "int" ++ " vs " ++ "db2" ++ "=" ++ "bigint",
        "db1", "db2"⟩] :=
  ⟨rfl,
   (claim_c8 "db1" "db2" wSnap3 "users" "id" "bigint" [⟨"id", "int", "NO"⟩]
     ⟨"id", "int", "NO"⟩ (by decide) (by decide) (by decide) (by decide)
     (by decide) (by decide)).1⟩

/-! ### Claim C4: ordering and input-order independence -/

theorem contains_eq_of_perm {l l' : List String} (h : l.Perm l') (x : String) :
    l.contains x = l'.contains x := by
  by_cases hm : x ∈ l
  · have h1 : l.contains x = true := List.elem_iff.mpr hm
    have h2 : l'.contains x = true := List.elem_iff.mpr (h.mem_iff.mp hm)
    rw [h1, h2]
  · have h1 : l.contains x = false := by
      rw [Bool.eq_false_iff]
      intro hc
      exact hm (List.elem_iff.mp hc)
    have h2 : l'.contains x = false := by
      rw [Bool.eq_false_iff]
      intro hc
      exact hm (h.mem_iff.mpr (List.elem_iff.mp hc))
    rw [h1, h2]

theorem sortedSetDiff_congr {la la' lb lb' : List String}
    (h1 : la.Perm la') (h2 : lb.Perm lb') :
    sortedSetDiff la lb = sortedSetDiff la' lb' := by
  unfold sortedSetDiff
  have hstep : sortStr (la.dedup.filter (fun x => !(lb.contains x))) =
      sortStr (la'.dedup.filter (fun x => !(lb.contains x))) :=
    sortStr_eq_of_perm (h1.dedup.filter _)
  rw [hstep, List.filter_congr (fun x _ => by rw [contains_eq_of_perm h2 x])]

theorem sortedSetInter_congr {la la' lb lb' : List String}
    (h1 : la.Perm la') (h2 : lb.Perm lb') :
    sortedSetInter la lb = sortedSetInter la' lb' := by
  unfold sortedSetInter
  have hstep : sortStr (la.dedup.filter (fun x => lb.contains x)) =
      sortStr (la'.dedup.filter (fun x => lb.contains x)) :=
    sortStr_eq_of_perm (h1.dedup.filter _)
  rw [hstep, List.filter_congr (fun x _ => by rw [contains_eq_of_perm h2 x])]

theorem compareTables_perm {l1 l2 : String} {m1 m2 m1' m2' : Snapshot}
    (hp1 : m1.Perm m1') (hp2 : m2.Perm m2')
    (hk1 : (m1.map Prod.fst).Nodup) (hk2 : (m2.map Prod.fst).Nodup) :
    compareTables l1 m1 l2 m2 = compareTables l1 m1' l2 m2' := by
  have hm1 : (m1.map Prod.fst).Perm (m1'.map Prod.fst) := hp1.map Prod.fst
  have hm2 : (m2.map Prod.fst).Perm (m2'.map Prod.fst) := hp2.map Prod.fst
  rw [compareTables_eq, compareTables_eq,
    sortedSetDiff_congr hm1 hm2, sortedSetDiff_congr hm2 hm1,
    sortedSetInter_congr hm1 hm2]
  congr 1
  apply List.flatMap_congr
  intro t _
  have e1 : tableCols m1 t = tableCols m1' t := dictGet_perm hp1 hk1
  have e2 : tableCols m2 t = tableCols m2' t := dictGet_perm hp2 hk2
  rw [e1, e2]

/-- Strict ascending code-point order (statement device). -/
def strLt (a b : String) : Prop := StrLeR a b ∧ a ≠ b

theorem strLt_pairwise_sortedSetDiff (a b : List String) :
    (sortedSetDiff a b).Pairwise strLt :=
  ((sortStr_sorted _).and (sortedSetDiff_nodup a b)).imp (fun h => h)

theorem strLt_pairwise_sortedSetInter (a b : List String) :
    (sortedSetInter a b).Pairwise strLt :=
  ((sortStr_sorted _).and (sortedSetInter_nodup a b)).imp (fun h => h)

theorem flatMap_names_sublist (l : List String) (g : String → List Difference)
    (hg : ∀ n ∈ l, g n = [] ∨ ∃ d, g n = [d] ∧ d.column_name = n) :
    ((l.flatMap g).map Difference.column_name).Sublist l := by
  induction l with
  | nil => simp
  | cons n ns ih =>
    rw [List.flatMap_cons, List.map_append]
    rcases hg n (by simp) with h | ⟨d, hd, hdn⟩
    · rw [h]
      simp only [List.map_nil, List.nil_append]
      exact (ih (fun x hx => hg x (List.mem_cons_of_mem n hx))).trans
        (List.sublist_cons_self n ns)
    · rw [hd]
      simp only [List.map_cons, List.map_nil, List.singleton_append]
      rw [hdn]
      exact List.Sublist.cons₂ n (ih (fun x hx => hg x (List.mem_cons_of_mem n hx)))

/-- Per-table output structure required by the ordering claim (statement
device): missing columns, then extra columns, then mismatches, each group
in strictly ascending column-name order and all rows naming the table. -/
def ColGroupsOrdered (t : String) (group : List Difference) : Prop :=
  ∃ mc ec mm, group = mc ++ ec ++ mm ∧
    (∀ d ∈ mc, d.diff_type = "MISSING_COLUMN" ∧ d.table_name = t) ∧
    (∀ d ∈ ec, d.diff_type = "EXTRA_COLUMN" ∧ d.table_name = t) ∧
    (∀ d ∈ mm, d.diff_type = "COLUMN_MISMATCH" ∧ d.table_name = t) ∧
    (mc.map Difference.column_name).Pairwise strLt ∧
    (ec.map Difference.column_name).Pairwise strLt ∧
    (mm.map Difference.column_name).Pairwise strLt

theorem compareColumns_ordered (t : String) (cols1 cols2 : List Column)
    (l1 l2 : String) :
    ColGroupsOrdered t (compareColumns t cols1 cols2 l1 l2) := by
  refine ⟨_, _, _, compareColumns_eq t cols1 cols2 l1 l2, ?_, ?_, ?_, ?_, ?_, ?_⟩
  · intro d hd
    rcases List.mem_map.mp hd with ⟨n, _, hne⟩
    rw [← hne]
    exact ⟨rfl, rfl⟩
  · intro d hd
    rcases List.mem_map.mp hd with ⟨n, _, hne⟩
    rw [← hne]
    exact ⟨rfl, rfl⟩
  · intro d hd
    rcases List.mem_flatMap.mp hd with ⟨n, _, hdn⟩
    by_cases hcnd : (colOf cols1 n).data_type ≠ (colOf cols2 n).data_type ∨
        (colOf cols1 n).is_nullable ≠ (colOf cols2 n).is_nullable
    · rw [if_pos hcnd] at hdn
      rw [List.mem_singleton.mp hdn]
      exact ⟨rfl, rfl⟩
    · rw [if_neg hcnd] at hdn
      cases hdn
  · have hmap : (((sortedSetDiff (cols1.map Column.column_name)
        (cols2.map Column.column_name)).map
          (fun n => missingColDiff l1 l2 t n (colOf cols1 n))).map
            Difference.column_name) =
        sortedSetDiff (cols1.map Column.column_name) (cols2.map Column.column_name) := by
      rw [List.map_map]
      have : ∀ n ∈ sortedSetDiff (cols1.map Column.column_name)
          (cols2.map Column.column_name),
          (Difference.column_name ∘ fun n => missingColDiff l1 l2 t n (colOf cols1 n)) n =
            id n := fun n _ => rfl
      rw [List.map_congr_left this, List.map_id]
    rw [hmap]
    exact strLt_pairwise_sortedSetDiff _ _
  · have hmap : (((sortedSetDiff (cols2.map Column.column_name)
        (cols1.map Column.column_name)).map
          (fun n => extraColDiff l1 l2 t n (colOf cols2 n))).map
            Difference.column_name) =
        sortedSetDiff (cols2.map Column.column_name) (cols1.map Column.column_name) := by
      rw [List.map_map]
      have : ∀ n ∈ sortedSetDiff (cols2.map Column.column_name)
          (cols1.map Column.column_name),
          (Difference.column_name ∘ fun n => extraColDiff l1 l2 t n (colOf cols2 n)) n =
            id n := fun n _ => rfl
      rw [List.map_congr_left this, List.map_id]
    rw [hmap]
    exact strLt_pairwise_sortedSetDiff _ _
  · apply List.Pairwise.sublist ?sub (strLt_pairwise_sortedSetInter
      (cols1.map Column.column_name) (cols2.map Column.column_name))
    case sub =>
      apply flatMap_names_sublist
      intro n _
      by_cases hcnd : (colOf cols1 n).data_type ≠ (colOf cols2 n).data_type ∨
          (colOf cols1 n).is_nullable ≠ (colOf cols2 n).is_nullable
      · right
        exact ⟨mismatchDiff l1 l2 t n (colOf cols1 n) (colOf cols2 n),
          by rw [if_pos hcnd], rfl⟩
      · left
        rw [if_neg hcnd]

/-- C4: the emitted Differences are grouped and ordered as the spec states
— all MISSING_TABLE rows in strictly ascending table order, then all
EXTRA_TABLE rows in strictly ascending table order, then the common tables
in strictly ascending table order, each contributing its missing columns,
then extra columns, then mismatches, each group in strictly ascending
column order — and the output is unchanged under any permutation of the
input mappings' key order. -/
theorem claim_c4 (l1 l2 : String) (m1 m2 m1' m2' : Snapshot)
    (hp1 : m1.Perm m1') (hp2 : m2.Perm m2')
    (hk1 : (m1.map Prod.fst).Nodup) (hk2 : (m2.map Prod.fst).Nodup) :
    compareTables l1 m1 l2 m2 = compareTables l1 m1' l2 m2' ∧
    ∃ mt et ts cts,
      compareTables l1 m1 l2 m2 = mt ++ et ++ cts.flatten ∧
      (∀ d ∈ mt, d.diff_type = "MISSING_TABLE" ∧ d.column_name = "") ∧
      (mt.map Difference.table_name).Pairwise strLt ∧
      (∀ d ∈ et, d.diff_type = "EXTRA_TABLE" ∧ d.column_name = "") ∧
      (et.map Difference.table_name).Pairwise strLt ∧
      ts.Pairwise strLt ∧
      List.Forall₂ ColGroupsOrdered ts cts := by
  constructor
  · exact compareTables_perm hp1 hp2 hk1 hk2
  · refine ⟨(sortedSetDiff (m1.map Prod.fst) (m2.map Prod.fst)).map
        (fun x => missingTableDiff l1 l2 x),
      (sortedSetDiff (m2.map Prod.fst) (m1.map Prod.fst)).map
        (fun x => extraTableDiff l1 l2 x),
      sortedSetInter (m1.map Prod.fst) (m2.map Prod.fst),
      (sortedSetInter (m1.map Prod.fst) (m2.map Prod.fst)).map
        (fun t => compareColumns t (tableCols m1 t) (tableCols m2 t) l1 l2),
      ?_, ?_, ?_, ?_, ?_, ?_, ?_⟩
    · rw [compareTables_eq]
      rfl
    · intro d hd
      rcases List.mem_map.mp hd with ⟨n, _, hne⟩
      rw [← hne]
      exact ⟨rfl, rfl⟩
    · have hmap : (((sortedSetDiff (m1.map Prod.fst) (m2.map Prod.fst)).map
          (fun x => missingTableDiff l1 l2 x)).map Difference.table_name) =
          sortedSetDiff (m1.map Prod.fst) (m2.map Prod.fst) := by
        rw [List.map_map]
        have : ∀ n ∈ sortedSetDiff (m1.map Prod.fst) (m2.map Prod.fst),
            (Difference.table_name ∘ fun x => missingTableDiff l1 l2 x) n = id n :=
          fun n _ => rfl
        rw [List.map_congr_left this, List.map_id]
      rw [hmap]
      exact strLt_pairwise_sortedSetDiff _ _
    · intro d hd
      rcases List.mem_map.mp hd with ⟨n, _, hne⟩
      rw [← hne]
      exact ⟨rfl, rfl⟩
    · have hmap : (((sortedSetDiff (m2.map Prod.fst) (m1.map Prod.fst)).map
          (fun x => extraTableDiff l1 l2 x)).map Difference.table_name) =
          sortedSetDiff (m2.map Prod.fst) (m1.map Prod.fst) := by
        rw [List.map_map]
        have : ∀ n ∈ sortedSetDiff (m2.map Prod.fst) (m1.map Prod.fst),
            (Difference.table_name ∘ fun x => extraTableDiff l1 l2 x) n = id n :=
          fun n _ => rfl
        rw [List.map_congr_left this, List.map_id]
      rw [hmap]
      exact strLt_pairwise_sortedSetDiff _ _
    · exact strLt_pairwise_sortedSetInter _ _
    · rw [List.forall₂_map_right_iff, List.forall₂_same]
      intro t _
      exact compareColumns_ordered t (tableCols m1 t) (tableCols m2 t) l1 l2

theorem claim_c4_witness :
    ([("orders", [(⟨"id", "integer", "NO"⟩ : Column)]),
      ("users", [⟨"id", "integer", "NO"⟩, ⟨"email", "text", "YES"⟩])] : Snapshot).Perm
      wSnap1 ∧
    compareTables "db1"
      [("orders", [⟨"id", "integer", "NO"⟩]),
       ("users", [⟨"id", "integer", "NO"⟩, ⟨"email", "text", "YES"⟩])] "db2" wSnap2 =
      compareTables "db1" wSnap1 "db2" wSnap2 :=
  ⟨by decide,
   (claim_c4 "db1" "db2"
     [("orders", [⟨"id", "integer", "NO"⟩]),
      ("users", [⟨"id", "integer", "NO"⟩, ⟨"email", "text", "YES"⟩])]
     wSnap2 wSnap1 wSnap2 (by decide) (by decide) (by decide) (by decide)).1⟩

/-! ### Claim C6: malformed column descriptors -/

/-- Success predicate on `Except` computations. -/
def isOkE {ε α : Type} : Except ε α → Prop
  | Except.ok _ => True
  | Except.error _ => False

theorem errBind {ε α β : Type} (e : ε) (g : α → Except ε β) :
    ((Except.error e : Except ε α) >>= g) = Except.error e := rfl

theorem okBind {ε α β : Type} (a : α) (g : α → Except ε β) :
    ((Except.ok a : Except ε α) >>= g) = g a := rfl

theorem isOkE_bind {ε α β : Type} {x : Except ε α} {g : α → Except ε β}
    (h : isOkE (x >>= g)) : isOkE x ∧ ∀ v, x = Except.ok v → isOkE (g v) := by
  cases hx : x with
  | error e =>
    rw [hx, errBind] at h
    exact h.elim
  | ok v =>
    refine ⟨trivial, ?_⟩
    intro w hw
    cases hw
    rw [hx, okBind] at h
    exact h

theorem mapM_ok {α β : Type} {f : α → Except String β} :
    ∀ {l : List α}, isOkE (l.mapM f) → ∀ x ∈ l, isOkE (f x) := by
  intro l
  induction l with
  | nil =>
    intro _ x hx
    cases hx
  | cons a l ih =>
    intro h x hx
    rw [List.mapM_cons] at h
    rcases isOkE_bind h with ⟨hfa, hrest⟩
    rcases List.mem_cons.mp hx with hxa | hxl
    · subst hxa
      exact hfa
    · cases hfav : f a with
      | error e =>
        rw [hfav] at hfa
        exact hfa.elim
      | ok v =>
        have h2 := hrest v hfav
        rcases isOkE_bind h2 with ⟨hm, _⟩
        exact ih hm x hxl

theorem foldlM_ok {α β : Type} {f : β → α → Except String β} :
    ∀ {l : List α} {acc : β}, isOkE (l.foldlM f acc) → ∀ x ∈ l,
      ∃ b, isOkE (f b x) := by
  intro l
  induction l with
  | nil =>
    intro _ _ x hx
    cases hx
  | cons a l ih =>
    intro acc h x hx
    rw [List.foldlM_cons] at h
    rcases isOkE_bind h with ⟨hfa, hrest⟩
    rcases List.mem_cons.mp hx with hxa | hxl
    · subst hxa
      exact ⟨acc, hfa⟩
    · cases hfav : f acc a with
      | error e =>
        rw [hfav] at hfa
        exact hfa.elim
      | ok v =>
        exact ih (hrest v hfav) x hxl

theorem getF_none_not_ok (field : String) : ¬ isOkE (getF none field) := by
  intro h
  exact h

theorem rawColsDict_name_none {cols : List RawColumn} {col : RawColumn}
    (hmem : col ∈ cols) (hnone : col.column_name = none) :
    ¬ isOkE (rawColsDict cols) := by
  intro h
  rcases foldlM_ok h col hmem with ⟨b, hb⟩
  rcases isOkE_bind hb with ⟨hg, _⟩
  rw [hnone] at hg
  exact hg

/-- The dict `rawColsDict` builds when every `column_name` is present. -/
def pureRawDict (cols : List RawColumn) : List (String × RawColumn) :=
  cols.foldl (fun acc c => dictInsert acc (c.column_name.getD "") c) []

theorem rawColsDict_all_some {cols : List RawColumn}
    (h : ∀ x ∈ cols, x.column_name ≠ none) :
    rawColsDict cols = Except.ok (pureRawDict cols) := by
  unfold rawColsDict pureRawDict
  suffices hgen : ∀ acc : List (String × RawColumn),
      cols.foldlM (fun acc c => do
        let n ← getF c.column_name "column_name"
        pure (dictInsert acc n c)) acc =
      Except.ok (cols.foldl (fun acc c => dictInsert acc (c.column_name.getD "") c) acc) by
    exact hgen []
  induction cols with
  | nil =>
    intro acc
    rfl
  | cons c cols ih =>
    intro acc
    rcases Option.ne_none_iff_exists.mp (h c (by simp)) with ⟨nm, hnm⟩
    rw [List.foldlM_cons, List.foldl_cons]
    have hstep : (do
        let n ← getF c.column_name "column_name"
        pure (dictInsert acc n c) : Except String (List (String × RawColumn))) =
        Except.ok (dictInsert acc (c.column_name.getD "") c) := by
      rw [← hnm]
      rfl
    rw [hstep, okBind]
    exact ih (fun x hx => h x (List.mem_cons_of_mem c hx)) _

theorem dictInsert_keys_mem {α : Type} {m : List (String × α)} {k x : String}
    {v : α} : x ∈ (dictInsert m k v).map Prod.fst ↔
      x ∈ m.map Prod.fst ∨ x = k := by
  unfold dictInsert
  split
  · rw [List.map_map]
    constructor
    · intro hx
      rcases List.mem_map.mp hx with ⟨p, hp, hpe⟩
      by_cases hpk : (p.1 == k) = true
      · right
        rw [← hpe]
        simp [Function.comp, hpk]
      · left
        have : (Prod.fst ∘ fun p => if p.1 == k then (k, v) else p) p = p.1 := by
          simp only [Function.comp]
          rw [if_neg (by simp [hpk] : ¬ ((p.1 == k) = true))]
      -- fallthrough handled below
        rw [← hpe, this]
        exact List.mem_map_of_mem Prod.fst hp
    · intro hx
      rcases hx with hx | hx
      · rcases List.mem_map.mp hx with ⟨p, hp, hpe⟩
        apply List.mem_map.mpr
        refine ⟨p, hp, ?_⟩
        by_cases hpk : (p.1 == k) = true
        · simp only [Function.comp]
          rw [if_pos hpk, ← hpe]
          exact (beq_iff_eq.mp hpk).symm
        · simp only [Function.comp]
          rw [if_neg (by simp [hpk] : ¬ ((p.1 == k) = true))]
          exact hpe
      · subst hx
        rename_i hany
        rcases List.any_eq_true.mp hany with ⟨p, hp, hpk⟩
        apply List.mem_map.mpr
        refine ⟨p, hp, ?_⟩
        simp only [Function.comp]
        rw [if_pos hpk]
  · rw [List.map_append]
    simp [List.mem_append]

theorem dictInsert_keys_nodup {α : Type} {m : List (String × α)} {k : String}
    {v : α} (h : (m.map Prod.fst).Nodup) :
    ((dictInsert m k v).map Prod.fst).Nodup := by
  unfold dictInsert
  split
  · rw [List.map_map]
    have he : m.map (Prod.fst ∘ fun p => if p.1 == k then (k, v) else p) =
        m.map Prod.fst := by
      apply List.map_congr_left
      intro p _
      by_cases hpk : (p.1 == k) = true
      · simp only [Function.comp]
        rw [if_pos hpk]
        exact (beq_iff_eq.mp hpk).symm
      · simp only [Function.comp]
        rw [if_neg (by simp [hpk] : ¬ ((p.1 == k) = true))]
    rw [he]
    exact h
  · rename_i hany
    rw [List.map_append, List.nodup_append]
    refine ⟨h, by simp, ?_⟩
    intro x hx hx2
    simp only [List.map_cons, List.map_nil, List.mem_singleton] at hx2
    subst hx2
    rcases List.mem_map.mp hx with ⟨p, hp, hpe⟩
    simp only [Bool.not_eq_true] at hany
    rw [List.any_eq_false] at hany
    exact (hany p hp) (beq_iff_eq.mpr hpe)

theorem dictGet_dictInsert_self {α : Type} {m : List (String × α)} {k : String}
    {v d : α} (h : (m.map Prod.fst).Nodup) :
    dictGet (dictInsert m k v) k d = v :=
  dictGet_of_mem (dictInsert_keys_nodup h) (by
    unfold dictInsert
    split
    · rename_i hany
      rcases List.any_eq_true.mp hany with ⟨p, hp, hpk⟩
      apply List.mem_map.mpr
      exact ⟨p, hp, by rw [if_pos hpk]⟩
    · exact List.mem_append.mpr (Or.inr (by simp)))

theorem filter_replace_ne {α : Type} (m : List (String × α)) (x k : String)
    (v : α) (hx : x ≠ k) :
    (m.map (fun p => if p.1 == x then (x, v) else p)).filter (fun p => p.1 == k) =
      m.filter (fun p => p.1 == k) := by
  induction m with
  | nil => rfl
  | cons p ps ih =>
    rw [List.map_cons, List.filter_cons, List.filter_cons]
    by_cases hpx : (p.1 == x) = true
    · rw [if_pos hpx]
      have h1 : ((x, v).1 == k) = false := by
        rw [beq_eq_false_iff_ne]
        exact hx
      have h2 : (p.1 == k) = false := by
        rw [beq_eq_false_iff_ne, beq_iff_eq.mp hpx]
        exact hx
      rw [h1, h2]
      simpa using ih
    · rw [if_neg hpx]
      by_cases hpk : (p.1 == k) = true
      · rw [hpk]
        simp only [if_pos]
        rw [ih]
      · rw [Bool.eq_false_iff.mpr hpk]
        simpa using ih

theorem dictGet_dictInsert_ne {α : Type} {m : List (String × α)} {k x : String}
    {v d : α} (hx : x ≠ k) :
    dictGet (dictInsert m x v) k d = dictGet m k d := by
  unfold dictInsert
  split
  · unfold dictGet
    rw [filter_replace_ne m x k v hx]
  · unfold dictGet
    rw [List.filter_append]
    have hsing : ([(x, v)].filter (fun p => p.1 == k)) = [] := by
      rw [List.filter_eq_nil_iff]
      intro p hp
      rw [List.mem_singleton.mp hp]
      simp only [beq_iff_eq]
      simp [hx]
    rw [hsing, List.append_nil]

theorem mem_pureRawDict_keys {cols : List RawColumn} {nm : String}
    {col : RawColumn} (hmem : col ∈ cols) (hname : col.column_name = some nm) :
    nm ∈ (pureRawDict cols).map Prod.fst := by
  unfold pureRawDict
  suffices hgen : ∀ (cs : List RawColumn) (acc : List (String × RawColumn)),
      (nm ∈ acc.map Prod.fst ∨ col ∈ cs) →
      nm ∈ (cs.foldl (fun acc c => dictInsert acc (c.column_name.getD "") c)
        acc).map Prod.fst by
    exact hgen cols [] (Or.inr hmem)
  intro cs
  induction cs with
  | nil =>
    intro acc h
    rcases h with h | h
    · exact h
    · cases h
  | cons c cs ih =>
    intro acc h
    rw [List.foldl_cons]
    apply ih
    rcases h with h | h
    · exact Or.inl (dictInsert_keys_mem.mpr (Or.inl h))
    · rcases List.mem_cons.mp h with hc | hc
      · subst hc
        left
        apply dictInsert_keys_mem.mpr
        right
        rw [hname]
        rfl
      · exact Or.inr hc

theorem dictGet_pureRawDict {cols : List RawColumn} {nm : String}
    {col : RawColumn} (hall : ∀ x ∈ cols, x.column_name ≠ none)
    (hmem : col ∈ cols) (hname : col.column_name = some nm)
    (huniq : ∀ x ∈ cols, x.column_name = some nm → x = col) :
    dictGet (pureRawDict cols) nm noCol = col := by
  unfold pureRawDict
  suffices hgen : ∀ (cs : List RawColumn) (acc : List (String × RawColumn)),
      (∀ x ∈ cs, x.column_name ≠ none) →
      (∀ x ∈ cs, x.column_name = some nm → x = col) →
      (acc.map Prod.fst).Nodup →
      (col ∈ cs ∨ dictGet acc nm noCol = col) →
      dictGet (cs.foldl (fun acc c => dictInsert acc (c.column_name.getD "") c)
        acc) nm noCol = col by
    exact hgen cols [] hall huniq (by simp) (Or.inl hmem)
  intro cs
  induction cs with
  | nil =>
    intro acc _ _ _ h
    rcases h with h | h
    · cases h
    · exact h
  | cons c cs ih =>
    intro acc hall2 huniq2 hnod h
    rw [List.foldl_cons]
    have hnod2 : ((dictInsert acc (c.column_name.getD "") c).map Prod.fst).Nodup :=
      dictInsert_keys_nodup hnod
    rcases Option.ne_none_iff_exists.mp (hall2 c (by simp)) with ⟨k, hk⟩
    by_cases hknm : k = nm
    · have hceq : c = col := huniq2 c (by simp) (by rw [← hk, hknm])
      refine ih _ (fun x hx => hall2 x (List.mem_cons_of_mem c hx))
        (fun x hx => huniq2 x (List.mem_cons_of_mem c hx)) hnod2 ?_
      right
      have hkey : c.column_name.getD "" = nm := by
        rw [← hk]
        simp [hknm]
      rw [hkey, dictGet_dictInsert_self hnod, hceq]
    · have hkey : c.column_name.getD "" = k := by
        rw [← hk]
        rfl
      refine ih _ (fun x hx => hall2 x (List.mem_cons_of_mem c hx))
        (fun x hx => huniq2 x (List.mem_cons_of_mem c hx)) hnod2 ?_
      rcases h with h | h
      · rcases List.mem_cons.mp h with hc | hc
        · subst hc
          rw [hname] at hk
          exact absurd (Option.some.inj hk.symm).symm hknm
        · exact Or.inl hc
      · right
        rw [hkey, dictGet_dictInsert_ne hknm]
        exact h

/-- A column list containing a descriptor whose missing field is certain to
be examined once the table is compared: either some descriptor lacks
`column_name`, or a uniquely-named descriptor lacks `data_type` or
`is_nullable`. -/
def BadColumns (cols : List RawColumn) : Prop :=
  (∃ x ∈ cols, x.column_name = none) ∨
  (∃ col nm, (∀ x ∈ cols, x.column_name ≠ none) ∧ col ∈ cols ∧
    col.column_name = some nm ∧ (∀ x ∈ cols, x.column_name = some nm → x = col) ∧
    (col.data_type = none ∨ col.is_nullable = none))

theorem bind_step {ε α β : Type} {x : Except ε α} {g : α → Except ε β}
    (h : isOkE (x >>= g)) : ∃ v, x = Except.ok v ∧ isOkE (g v) := by
  cases hx : x with
  | error e =>
    rw [hx, errBind] at h
    exact h.elim
  | ok v =>
    rw [hx, okBind] at h
    exact ⟨v, rfl, h⟩

theorem fieldPair_not_ok {c : RawColumn}
    (hf : c.data_type = none ∨ c.is_nullable = none)
    {β : Type} {g : String → String → β} :
    ¬ isOkE (do
      let dt ← getF c.data_type "data_type"
      let nu ← getF c.is_nullable "is_nullable"
      pure (g dt nu) : Except String β) := by
  intro h
  rcases bind_step h with ⟨dt, hdt, h2⟩
  rcases hf with hf | hf
  · rw [hf] at hdt
    cases hdt
  · rcases bind_step h2 with ⟨nu, hnu, _⟩
    rw [hf] at hnu
    cases hnu

theorem fieldQuad_left_not_ok {c1 c2 : RawColumn}
    (hf : c1.data_type = none ∨ c1.is_nullable = none)
    {β : Type} {g : String → String → String → String → β} :
    ¬ isOkE (do
      let t1 ← getF c1.data_type "data_type"
      let t2 ← getF c2.data_type "data_type"
      let n1 ← getF c1.is_nullable "is_nullable"
      let n2 ← getF c2.is_nullable "is_nullable"
      pure (g t1 t2 n1 n2) : Except String β) := by
  intro h
  rcases bind_step h with ⟨t1, ht1, h2⟩
  rcases hf with hf | hf
  · rw [hf] at ht1
    cases ht1
  · rcases bind_step h2 with ⟨t2, ht2, h3⟩
    rcases bind_step h3 with ⟨n1, hn1, _⟩
    rw [hf] at hn1
    cases hn1

theorem fieldQuad_right_not_ok {c1 c2 : RawColumn}
    (hf : c2.data_type = none ∨ c2.is_nullable = none)
    {β : Type} {g : String → String → String → String → β} :
    ¬ isOkE (do
      let t1 ← getF c1.data_type "data_type"
      let t2 ← getF c2.data_type "data_type"
      let n1 ← getF c1.is_nullable "is_nullable"
      let n2 ← getF c2.is_nullable "is_nullable"
      pure (g t1 t2 n1 n2) : Except String β) := by
  intro h
  rcases bind_step h with ⟨t1, ht1, h2⟩
  rcases bind_step h2 with ⟨t2, ht2, h3⟩
  rcases hf with hf | hf
  · rw [hf] at ht2
    cases ht2
  · rcases bind_step h3 with ⟨n1, hn1, h4⟩
    rcases bind_step h4 with ⟨n2, hn2, _⟩
    rw [hf] at hn2
    cases hn2

theorem rawCompareColumns_bad {t l1 l2 : String} {cols1 cols2 : List RawColumn}
    (hbad : BadColumns cols1 ∨ BadColumns cols2) :
    ¬ isOkE (rawCompareColumns t cols1 cols2 l1 l2) := by
  intro hok
  unfold rawCompareColumns at hok
  rcases bind_step hok with ⟨D1, hcd1, hok2⟩
  rcases bind_step hok2 with ⟨D2, hcd2, hok3⟩
  rcases hbad with hbad | hbad
  · rcases hbad with ⟨x, hx, hxn⟩ | ⟨col, nm, hall, hmem, hname, huniq, hf⟩
    · exact rawColsDict_name_none hx hxn (by rw [hcd1]; trivial)
    · have hD1 : D1 = pureRawDict cols1 := by
        have h := rawColsDict_all_some hall
        rw [hcd1] at h
        exact Except.ok.inj h
      have hnm1 : nm ∈ D1.map Prod.fst := by
        rw [hD1]
        exact mem_pureRawDict_keys hmem hname
      have hc1 : dictGet D1 nm noCol = col := by
        rw [hD1]
        exact dictGet_pureRawDict hall hmem hname huniq
      rcases bind_step hok3 with ⟨ms, hms, hok4⟩
      by_cases hnm2 : nm ∈ D2.map Prod.fst
      · rcases bind_step hok4 with ⟨es, hes, hok5⟩
        rcases bind_step hok5 with ⟨mm, hmm, _⟩
        have hmismOk : isOkE ((sortedSetInter (D1.map (fun p => p.1))
            (D2.map (fun p => p.1))).mapM (fun n => do
              let c1 := dictGet D1 n noCol
              let c2 := dictGet D2 n noCol
              let t1 ← getF c1.data_type "data_type"
              let t2 ← getF c2.data_type "data_type"
              let n1 ← getF c1.is_nullable "is_nullable"
              let n2 ← getF c2.is_nullable "is_nullable"
              pure (if t1 ≠ t2 ∨ n1 ≠ n2 then
                [mismatchDiff l1 l2 t n ⟨n, t1, n1⟩ ⟨n, t2, n2⟩] else []))) := by
          rw [hmm]
          trivial
        have helem := mapM_ok hmismOk nm (mem_sortedSetInter.mpr ⟨hnm1, hnm2⟩)
        rw [hc1] at helem
        exact fieldQuad_left_not_ok hf helem
      · have hmissOk : isOkE ((sortedSetDiff (D1.map (fun p => p.1))
            (D2.map (fun p => p.1))).mapM (fun n => do
              let c := dictGet D1 n noCol
              let dt ← getF c.data_type "data_type"
              let nu ← getF c.is_nullable "is_nullable"
              pure (missingColDiff l1 l2 t n ⟨n, dt, nu⟩))) := by
          rw [hms]
          trivial
        have helem := mapM_ok hmissOk nm (mem_sortedSetDiff.mpr ⟨hnm1, hnm2⟩)
        rw [hc1] at helem
        exact fieldPair_not_ok hf helem
  · rcases hbad with ⟨x, hx, hxn⟩ | ⟨col, nm, hall, hmem, hname, huniq, hf⟩
    · exact rawColsDict_name_none hx hxn (by rw [hcd2]; trivial)
    · have hD2 : D2 = pureRawDict cols2 := by
        have h := rawColsDict_all_some hall
        rw [hcd2] at h
        exact Except.ok.inj h
      have hnm2 : nm ∈ D2.map Prod.fst := by
        rw [hD2]
        exact mem_pureRawDict_keys hmem hname
      have hc2 : dictGet D2 nm noCol = col := by
        rw [hD2]
        exact dictGet_pureRawDict hall hmem hname huniq
      rcases bind_step hok3 with ⟨ms, hms, hok4⟩
      rcases bind_step hok4 with ⟨es, hes, hok5⟩
      by_cases hnm1 : nm ∈ D1.map Prod.fst
      · rcases bind_step hok5 with ⟨mm, hmm, _⟩
        have hmismOk : isOkE ((sortedSetInter (D1.map (fun p => p.1))
            (D2.map (fun p => p.1))).mapM (fun n => do
              let c1 := dictGet D1 n noCol
              let c2 := dictGet D2 n noCol
              let t1 ← getF c1.data_type "data_type"
              let t2 ← getF c2.data_type "data_type"
              let n1 ← getF c1.is_nullable "is_nullable"
              let n2 ← getF c2.is_nullable "is_nullable"
              pure (if t1 ≠ t2 ∨ n1 ≠ n2 then
                [mismatchDiff l1 l2 t n ⟨n, t1, n1⟩ ⟨n, t2, n2⟩] else []))) := by
          rw [hmm]
          trivial
        have helem := mapM_ok hmismOk nm (mem_sortedSetInter.mpr ⟨hnm1, hnm2⟩)
        rw [hc2] at helem
        exact fieldQuad_right_not_ok hf helem
      · have hextraOk : isOkE ((sortedSetDiff (D2.map (fun p => p.1))
            (D1.map (fun p => p.1))).mapM (fun n => do
              let c := dictGet D2 n noCol
              let dt ← getF c.data_type "data_type"
              let nu ← getF c.is_nullable "is_nullable"
              pure (extraColDiff l1 l2 t n ⟨n, dt, nu⟩))) := by
          rw [hes]
          trivial
        have helem := mapM_ok hextraOk nm (mem_sortedSetDiff.mpr ⟨hnm2, hnm1⟩)
        rw [hc2] at helem
        exact fieldPair_not_ok hf helem

theorem rawCompareTables_bad {l1 l2 t : String} {m1 m2 : RawSnapshot}
    (ht1 : t ∈ m1.map Prod.fst) (ht2 : t ∈ m2.map Prod.fst)
    (hbad : BadColumns (dictGet m1 t []) ∨ BadColumns (dictGet m2 t [])) :
    ¬ isOkE (rawCompareTables l1 m1 l2 m2) := by
  intro hok
  unfold rawCompareTables at hok
  rcases bind_step hok with ⟨parts, hparts, _⟩
  have hpartsOk : isOkE ((sortedSetInter (m1.map (fun p => p.1))
      (m2.map (fun p => p.1))).mapM (fun t =>
        rawCompareColumns t (dictGet m1 t []) (dictGet m2 t []) l1 l2)) := by
    rw [hparts]
    trivial
  exact rawCompareColumns_bad hbad
    (mapM_ok hpartsOk t (mem_sortedSetInter.mpr ⟨ht1, ht2⟩))

theorem rawCompareAll_bad {entries : List (String × RawSnapshot)}
    {la lb : String}
    (hpair : (la, lb) ∈ allPairs ((buildMap entries).map (fun p => p.1)))
    (hbad : ¬ isOkE (rawCompareTables la (dictGet (buildMap entries) la []) lb
      (dictGet (buildMap entries) lb []))) :
    ¬ isOkE (rawCompareAll entries) := by
  intro hok
  unfold rawCompareAll at hok
  rcases bind_step hok with ⟨parts, hparts, _⟩
  have hOk : isOkE ((allPairs ((buildMap entries).map (fun p => p.1))).mapM
      (fun q => rawCompareTables q.1 (dictGet (buildMap entries) q.1 []) q.2
        (dictGet (buildMap entries) q.2 []))) := by
    rw [hparts]
    trivial
  exact hbad (mapM_ok hOk (la, lb) hpair)

theorem rawGenerateDiffReport_error {entries : List (String × RawSnapshot)}
    (hbad : ¬ isOkE (rawCompareAll entries)) :
    ∃ e, rawGenerateDiffReport entries = Except.error e := by
  cases hall : rawCompareAll entries with
  | error e =>
    refine ⟨e, ?_⟩
    unfold rawGenerateDiffReport
    rw [hall, errBind]
  | ok v =>
    exact absurd (by rw [hall]; trivial) hbad

/-- C6 (amended): a column descriptor lacking a required field aborts the
run with an error and no report whenever the comparison actually examines
it — when its table is common to some compared pair (and, for a missing
`data_type`/`is_nullable`, it is the unique carrier of its name in its
list). -/
theorem claim_c6 (entries : List (String × RawSnapshot)) (la lb t : String)
    (hpair : (la, lb) ∈ allPairs ((buildMap entries).map (fun p => p.1)))
    (ht1 : t ∈ (dictGet (buildMap entries) la []).map Prod.fst)
    (ht2 : t ∈ (dictGet (buildMap entries) lb []).map Prod.fst)
    (hbad : BadColumns (dictGet (dictGet (buildMap entries) la []) t []) ∨
      BadColumns (dictGet (dictGet (buildMap entries) lb []) t [])) :
    ∃ e, rawGenerateDiffReport entries = Except.error e :=
  rawGenerateDiffReport_error
    (rawCompareAll_bad hpair (rawCompareTables_bad ht1 ht2 hbad))

/-- A descriptor lacking `data_type`, sitting in a table present only in
db1. -/
def cexBad : RawColumn := ⟨some "c", none, some "YES"⟩

def cexS1 : RawSnapshot :=
  [("solo", [cexBad]), ("shared", [⟨some "id", some "int", some "NO"⟩])]

def cexS2 : RawSnapshot := [("shared", [⟨some "id", some "int", some "NO"⟩])]

/-- Counterexample to C6 as stated: the input contains a column descriptor
lacking a required field, yet the run raises nothing and writes a report. -/
theorem claim_c6_counterexample :
    (("solo", [cexBad]) ∈ cexS1 ∧ cexBad.data_type = none) ∧
    rawGenerateDiffReport [("db1", cexS1), ("db2", cexS2)] =
      Except.ok (some
        [["Diff Type", "Table Name", "Column Name", "Database 1", "Database 2",
          "Detail"],
         ["MISSING_TABLE", "solo", "", "db1", "db2",
          "Table exists in db1 but not in db2"]]) :=
  ⟨⟨by decide, rfl⟩, rfl⟩

/-- The C6 witness input: the descriptor missing `data_type` is in the
shared table, so the run errors. -/
def cexS3 : RawSnapshot := [("shared", [⟨some "id", none, some "NO"⟩])]

theorem claim_c6_witness :
    ∃ e, rawGenerateDiffReport [("db1", cexS3), ("db2", cexS2)] =
      Except.error e :=
  claim_c6 [("db1", cexS3), ("db2", cexS2)] "db1" "db2" "shared"
    (by decide) (by decide) (by decide)
    (Or.inl (Or.inr ⟨⟨some "id", none, some "NO"⟩, "id",
      by decide, by decide, rfl, by decide, Or.inl rfl⟩))
